import Mathlib

/-!
# The task registry of `fxcore` (`fxcore/task.go`)

A shallow embedding of `TaskRegistry` and its operations `NewTaskRegistry`,
`Names`, `ListItems`, `TemplateSettings` and `Run` (namespace `Fxcore`), followed
by a model of the HTTP server composition engine of `fxhttpserver` (namespace
`Fxhttpserver`, introduced where its definitions start).

Modelling choices:

* A Go `string` is its byte sequence (`GoString`); `<` on strings is Go's
  byte-wise lexicographic comparison (`GoString.lt`).
* A Go `map[string]V` is a key/value list without repeated keys (`GoMap`).
  The order of the list is not observable through `get?`; wherever the source
  ranges over a map, the result is shown for every order of the entries.
* A `Task` is an interface value: its methods are pure functions, and the
  optional interfaces `GroupedTask` and `TaskWithTemplateSettings` are optional
  fields (`none` when the type assertion of the source fails).
* `sort.Strings` and `sort.Slice` are the standard library's; they are
  modelled by their contract (the output is a permutation of the input in
  which no later element is `less` than an earlier one).  `sort.Slice` is
  not stable, so `ListItems` is a relation between a registry and its possible
  outputs, with an executable instance of it.  Where one input and its outputs
  are to be computed, the code of `sort.Slice` itself is embedded (`Slice`,
  after `pdqsort_func` of `sort/zsortfunc.go`).
-/

namespace Fxcore

/-! ## Strings -/

/-- A Go string: an immutable sequence of bytes.  A byte is a natural number; no
result below needs the bound 256. -/
abbrev GoString := List Nat

/-- The Go string literal with the given text (its UTF-8 bytes). -/
def str (s : String) : GoString :=
  s.data.flatMap (fun c => (String.utf8EncodeChar c).map UInt8.toNat)

/-- Go's `a < b` on strings: byte-wise lexicographic comparison. -/
def GoString.lt : GoString → GoString → Bool
  | [], [] => false
  | [], _ :: _ => true
  | _ :: _, [] => false
  | a :: as, b :: bs =>
    if a < b then true else if b < a then false else GoString.lt as bs

/-- Go's `a <= b` on strings. -/
def GoString.le (a b : GoString) : Bool := GoString.lt a b || decide (a = b)

/-- The order a sort by `<` establishes between an earlier element `a` and a
later element `b`: `b` is not less than `a`. -/
def GoString.notAfter (a b : GoString) : Prop := GoString.lt b a = false

instance GoString.decidableNotAfter : DecidableRel GoString.notAfter :=
  fun a b => inferInstanceAs (Decidable (GoString.lt b a = false))

/-! ## Maps -/

/-- A Go `map[string]ν`: entries with pairwise different keys. -/
structure GoMap (ν : Type) where
  entries : List (GoString × ν)
  nodupKeys : (entries.map Prod.fst).Nodup

/-- The value stored under `k` in a list of entries, if any. -/
def GoMap.lookup {ν : Type} (k : GoString) : List (GoString × ν) → Option ν
  | [] => none
  | e :: rest => if e.1 = k then some e.2 else GoMap.lookup k rest

/-- The map made by `make(map[string]ν)`. -/
def GoMap.empty {ν : Type} : GoMap ν := ⟨[], List.nodup_nil⟩

/-- The keys of the map, in the order of its entries. -/
def GoMap.keys {ν : Type} (m : GoMap ν) : List GoString := m.entries.map Prod.fst

/-- The lookup `v, ok := m[k]`: `some v` when `ok`, `none` otherwise. -/
def GoMap.get? {ν : Type} (m : GoMap ν) (k : GoString) : Option ν :=
  GoMap.lookup k m.entries

/-- The assignment `m[k] = v`: any previous entry for `k` is replaced. -/
def GoMap.set {ν : Type} (m : GoMap ν) (k : GoString) (v : ν) : GoMap ν :=
  ⟨(k, v) :: m.entries.filter (fun e => decide (e.1 ≠ k)), by
    rw [List.map_cons, List.nodup_cons]
    refine ⟨?_, m.nodupKeys.sublist (List.filter_sublist m.entries |>.map Prod.fst)⟩
    simp only [List.mem_map, List.mem_filter, decide_eq_true_eq, not_exists, not_and]
    intro e he heq
    exact he.2 heq⟩

/-! ## Tasks -/

/-- Stands for `context.Context`; the registry only hands it to the task. -/
structure Context where
  values : List (GoString × GoString)

/-- The `TaskResult` of the source; `Details` is `none` for a nil map. -/
structure TaskResult where
  Success : Bool
  Message : GoString
  Details : Option (List (GoString × GoString))
deriving DecidableEq

/-- The `TaskTemplateSettings` of the source. -/
structure TaskTemplateSettings where
  Placeholder : GoString
  DefaultValue : GoString
  Rows : Int
  EscapeContent : Bool
deriving DecidableEq

/-- The `DefaultTaskTemplateSettings` of the source. -/
def DefaultTaskTemplateSettings : TaskTemplateSettings :=
  { Placeholder := str "Optional input...", DefaultValue := [], Rows := 1, EscapeContent := true }

/-- A value of interface type `Task`.  `Group` is `some g` when the value also
implements `GroupedTask` with `Group() = g`; `TemplateSettings` is `some f`
when it also implements `TaskWithTemplateSettings` with method `f`. -/
structure Task where
  Name : GoString
  Run : Context → List Nat → TaskResult
  Group : Option GoString
  TemplateSettings : Option (TaskTemplateSettings → TaskTemplateSettings)

/-- The `TaskRegistry` of the source. -/
structure TaskRegistry where
  tasks : GoMap Task

/-- The `TaskRegistryParams` of the source. -/
structure TaskRegistryParams where
  Tasks : List Task

/-- The `NewTaskRegistry` of the source: every task is stored under its name,
in the order of the list. -/
def NewTaskRegistry (p : TaskRegistryParams) : TaskRegistry :=
  ⟨p.Tasks.foldl (fun tasks task => tasks.set task.Name task) GoMap.empty⟩

/-- The standard library's `sort.Strings`. -/
def sortStrings (names : List GoString) : List GoString :=
  List.insertionSort GoString.notAfter names

/-- The `Names` of the source: the keys of the map, sorted. -/
def TaskRegistry.Names (r : TaskRegistry) : List GoString :=
  sortStrings r.tasks.keys

/-- The `Run` of the source. -/
def TaskRegistry.Run (r : TaskRegistry) (ctx : Context) (name : GoString) (input : List Nat) :
    TaskResult :=
  match r.tasks.get? name with
  | none => { Success := false, Message := str "task " ++ name ++ str " not found", Details := none }
  | some task => task.Run ctx input

/-! ## The sidebar list -/

/-- The `TaskListItem` of the source; `Tasks` is `[]` for a nil slice. -/
structure TaskListItem where
  Name : GoString
  IsGroup : Bool
  Tasks : List GoString
deriving DecidableEq

/-- The state of the first loop of `ListItems`: the map `groups` and the
slice `items`. -/
abbrev ListState := GoMap (List GoString) × List TaskListItem

/-- The type assertion `gt, ok := r.tasks[name].(GroupedTask)` of `ListItems`
followed by `gt.Group()`: `none` when the assertion fails. -/
def TaskRegistry.groupOf (r : TaskRegistry) (name : GoString) : Option GoString :=
  (r.tasks.get? name).bind Task.Group

/-- The item `TaskListItem{Name: name}` of a task outside any group. -/
def standaloneItem (name : GoString) : TaskListItem :=
  { Name := name, IsGroup := false, Tasks := [] }

/-- One pass of the first loop of `ListItems`, for the name `name`: a task that
implements `GroupedTask` is appended to its group, any other becomes an item. -/
def TaskRegistry.listStep (r : TaskRegistry) (st : ListState) (name : GoString) : ListState :=
  match r.groupOf name with
  | some g => (st.1.set g ((st.1.get? g).getD [] ++ [name]), st.2)
  | none => (st.1, st.2 ++ [standaloneItem name])

/-- The first loop of `ListItems`, over `r.Names()`. -/
def TaskRegistry.listCollect (r : TaskRegistry) : ListState :=
  r.Names.foldl r.listStep (GoMap.empty, [])

/-- The item appended for one entry of `groups` by the second loop of `ListItems`. -/
def groupItem (e : GoString × List GoString) : TaskListItem :=
  { Name := e.1, IsGroup := true, Tasks := e.2 }

/-- The `less` function `ListItems` hands to `sort.Slice`. -/
def itemLess (a b : TaskListItem) : Bool := GoString.lt a.Name b.Name

/-- The contract of the standard library's `sort.Slice` (not stable): `output`
is a possible result for `input` when it is a rearrangement of it in which no
later element is `less` than an earlier one. -/
def sortSliceResult {α : Type} (less : α → α → Bool) (input output : List α) : Prop :=
  output.Perm input ∧ output.Pairwise (fun a b => less b a = false)

/-- One implementation of the contract of `sort.Slice`: an insertion sort.  (The
code of the standard library is `Slice` below.) -/
def sortSlice {α : Type} (less : α → α → Bool) (input : List α) : List α :=
  List.insertionSort (fun a b => less b a = false) input

/-- The possible results of `ListItems`: the second loop ranges over `groups`
in some order `order`, and `sort.Slice` returns some result for the items. -/
def TaskRegistry.ListItemsResult (r : TaskRegistry) (out : List TaskListItem) : Prop :=
  ∃ order : List (GoString × List GoString),
    order.Perm r.listCollect.1.entries ∧
    sortSliceResult itemLess (r.listCollect.2 ++ order.map groupItem) out

/-- The `ListItems` of the source, with the second loop ranging over `groups` in
the order of its entries and `sortSlice` for `sort.Slice`. -/
def TaskRegistry.ListItems (r : TaskRegistry) : List TaskListItem :=
  sortSlice itemLess (r.listCollect.2 ++ r.listCollect.1.entries.map groupItem)

/-! ## The standard library's `sort.Slice` as it is implemented

`sort.Slice` runs `pdqsort_func` of the standard library (`sort/zsortfunc.go`,
Go 1.19 and later): an insertion sort for ranges of at most 12 elements, and
above that a quicksort whose pivot is the median of three fixed positions.  The
slice is a list here, an index out of range leaves it as it is. -/

/-- `data.Less(i, j)`: `less` on the elements at the indices `i` and `j`. -/
def lessAt {α : Type} (less : α → α → Bool) (data : List α) (i j : Nat) : Bool :=
  match data[i]?, data[j]? with
  | some x, some y => less x y
  | _, _ => false

/-- `data.Swap(i, j)`. -/
def swapAt {α : Type} (data : List α) (i j : Nat) : List α :=
  match data[i]?, data[j]? with
  | some x, some y => (data.set i y).set j x
  | _, _ => data

/-- A loop `for i <= j && p(i) { i++ }`; it returns the last `i`. -/
def scanUp (p : Nat → Bool) (j : Nat) : Nat → Nat → Nat
  | 0, i => i
  | fuel + 1, i => if i ≤ j ∧ p i = true then scanUp p j fuel (i + 1) else i

/-- A loop `for i <= j && p(j) { j-- }`; it returns the last `j`. -/
def scanDown (p : Nat → Bool) (i : Nat) : Nat → Nat → Nat
  | 0, j => j
  | fuel + 1, j => if i ≤ j ∧ p j = true then scanDown p i fuel (j - 1) else j

/-- The inner loop of `insertionSort_func`:
`for j := i; j > a && data.Less(j, j-1); j-- { data.Swap(j, j-1) }`. -/
def insertDown {α : Type} (less : α → α → Bool) (a : Nat) : Nat → List α → List α
  | 0, data => data
  | j + 1, data =>
    if a < j + 1 ∧ lessAt less data (j + 1) j = true then
      insertDown less a j (swapAt data (j + 1) j)
    else data

/-- The outer loop of `insertionSort_func`, `for i := a + 1; i < b; i++`, with
`n` passes left. -/
def insertionLoop {α : Type} (less : α → α → Bool) (a : Nat) : Nat → Nat → List α → List α
  | 0, _, data => data
  | n + 1, i, data => insertionLoop less a n (i + 1) (insertDown less a i data)

/-- `insertionSort_func`: sorts `data[a:b]` by insertion. -/
def insertionSortFunc {α : Type} (less : α → α → Bool) (data : List α) (a b : Nat) : List α :=
  insertionLoop less a (b - (a + 1)) (a + 1) data

/-- `order2_func`: the indices `a`, `b` in the order of their elements, and the
count of swaps. -/
def order2Func {α : Type} (less : α → α → Bool) (data : List α) (a b swaps : Nat) :
    Nat × Nat × Nat :=
  if lessAt less data b a = true then (b, a, swaps + 1) else (a, b, swaps)

/-- `median_func`: the index of the median of the elements at `a`, `b`, `c`,
and the count of swaps. -/
def medianFunc {α : Type} (less : α → α → Bool) (data : List α) (a b c swaps : Nat) :
    Nat × Nat :=
  let ab := order2Func less data a b swaps
  let bc := order2Func less data ab.2.1 c ab.2.2
  let ab2 := order2Func less data ab.1 bc.1 bc.2.2
  (ab2.2.1, ab2.2.2)

/-- `choosePivot_func` for fewer than 50 elements: the pivot and the count of
swaps (0 for the hint `increasingHint`; the hint `decreasingHint` takes 12 swaps
and does not come up below 50 elements). -/
def choosePivotFunc {α : Type} (less : α → α → Bool) (data : List α) (a b : Nat) : Nat × Nat :=
  if 8 ≤ b - a then
    medianFunc less data (a + (b - a) / 4 * 1) (a + (b - a) / 4 * 2) (a + (b - a) / 4 * 3) 0
  else (a + (b - a) / 4 * 2, 0)

/-- `partialInsertionSort_func` for fewer than 50 elements: it changes nothing
and tells whether `data[a:b]` is in order already. -/
def partialInsertionSortFunc {α : Type} (less : α → α → Bool) (data : List α) (a b : Nat) :
    Bool :=
  scanUp (fun i => !lessAt less data i (i - 1)) (b - 1) data.length (a + 1) == b

/-- The loop of `partition_func` after the first exchange; it returns the slice
and the last `j`. -/
def partitionLoop {α : Type} (less : α → α → Bool) (a : Nat) :
    Nat → List α → Nat → Nat → List α × Nat
  | 0, data, _, j => (data, j)
  | fuel + 1, data, i, j =>
    let i2 := scanUp (fun i => lessAt less data i a) j data.length i
    let j2 := scanDown (fun j => !lessAt less data j a) i2 data.length j
    if j2 < i2 then (data, j2)
    else partitionLoop less a fuel (swapAt data i2 j2) (i2 + 1) (j2 - 1)

/-- `partition_func`: one quicksort partition of `data[a:b]` around the element
at `pivot`; the slice, the new index of the pivot, and whether the slice was
partitioned already. -/
def partitionFunc {α : Type} (less : α → α → Bool) (data : List α) (a b pivot : Nat) :
    List α × Nat × Bool :=
  let data1 := swapAt data a pivot
  let i := scanUp (fun i => lessAt less data1 i a) (b - 1) data1.length (a + 1)
  let j := scanDown (fun j => !lessAt less data1 j a) i data1.length (b - 1)
  if j < i then (swapAt data1 j a, j, true)
  else
    let r := partitionLoop less a data1.length (swapAt data1 i j) (i + 1) (j - 1)
    (swapAt r.1 r.2 a, r.2, false)

/-- The loop of `partitionEqual_func`; it returns the slice and the last `i`. -/
def partitionEqualLoop {α : Type} (less : α → α → Bool) (a : Nat) :
    Nat → List α → Nat → Nat → List α × Nat
  | 0, data, i, _ => (data, i)
  | fuel + 1, data, i, j =>
    let i2 := scanUp (fun i => !lessAt less data a i) j data.length i
    let j2 := scanDown (fun j => lessAt less data a j) i2 data.length j
    if j2 < i2 then (data, i2)
    else partitionEqualLoop less a fuel (swapAt data i2 j2) (i2 + 1) (j2 - 1)

/-- `partitionEqual_func`: `data[a:b]` as the elements equal to the pivot
followed by the greater ones. -/
def partitionEqualFunc {α : Type} (less : α → α → Bool) (data : List α) (a b pivot : Nat) :
    List α × Nat :=
  partitionEqualLoop less a data.length (swapAt data a pivot) (a + 1) (b - 1)

/-- `bits.Len`: the number of bits of `n`. -/
def bitsLen : Nat → Nat → Nat
  | 0, _ => 0
  | fuel + 1, n => if n = 0 then 0 else bitsLen fuel (n / 2) + 1

/-- `pdqsort_func` on `data[a:b]`, with `fuel` passes of its loop at most.  The
result is `none` when the run leaves the part embedded here: the fallback to
`heapSort_func` (`limit == 0`), `breakPatterns_func` (after an unbalanced
partition), and ranges of 50 elements and more (pivot by ninther, shifting in
`partialInsertionSort_func`). -/
def pdqsortFunc {α : Type} (less : α → α → Bool) :
    Nat → List α → Nat → Nat → Nat → Bool → Bool → Option (List α)
  | 0, _, _, _, _, _, _ => none
  | fuel + 1, data, a, b, limit, wasBalanced, wasPartitioned =>
    if b - a ≤ 12 then some (insertionSortFunc less data a b)
    else if limit = 0 then none
    else if wasBalanced = false then none
    else if 50 ≤ b - a then none
    else
      let pivot := (choosePivotFunc less data a b).1
      let increasing : Bool := (choosePivotFunc less data a b).2 == 0
      if (wasBalanced && wasPartitioned && increasing
          && partialInsertionSortFunc less data a b) = true then some data
      else if 0 < a ∧ lessAt less data (a - 1) pivot = false then
        let r := partitionEqualFunc less data a b pivot
        pdqsortFunc less fuel r.1 r.2 b limit wasBalanced wasPartitioned
      else
        let r := partitionFunc less data a b pivot
        let mid := r.2.1
        if mid - a < b - mid then
          match pdqsortFunc less fuel r.1 a mid limit true true with
          | none => none
          | some data2 =>
            pdqsortFunc less fuel data2 (mid + 1) b limit
              (decide ((b - a) / 8 ≤ mid - a)) r.2.2
        else
          match pdqsortFunc less fuel r.1 (mid + 1) b limit true true with
          | none => none
          | some data2 =>
            pdqsortFunc less fuel data2 a mid limit (decide ((b - a) / 8 ≤ b - mid)) r.2.2

/-- `sort.Slice(x, less)` as the standard library implements it:
`pdqsort_func(data, 0, length, bits.Len(uint(length)))`. -/
def Slice {α : Type} (less : α → α → Bool) (x : List α) : Option (List α) :=
  pdqsortFunc less (x.length + 1) x 0 x.length (bitsLen (x.length + 1) x.length) true true

/-- The `ListItems` of the source when the second loop ranges over `groups` in
the order `order`, with `sort.Slice` as the standard library implements it. -/
def TaskRegistry.ListItemsOver (r : TaskRegistry) (order : List (GoString × List GoString)) :
    Option (List TaskListItem) :=
  Slice itemLess (r.listCollect.2 ++ order.map groupItem)

/-- The settings `TemplateSettings` stores for one task. -/
def taskSettings (t : Task) : TaskTemplateSettings :=
  match t.TemplateSettings with
  | some f => f DefaultTaskTemplateSettings
  | none => DefaultTaskTemplateSettings

/-- The `TemplateSettings` of the source. -/
def TaskRegistry.TemplateSettings (r : TaskRegistry) : GoMap TaskTemplateSettings :=
  r.tasks.entries.foldl (fun settings e => settings.set e.1 (taskSettings e.2)) GoMap.empty

/-- The loop of `TemplateSettings` when it ranges over the entries of `r.tasks`
in the order `order` (Go fixes no order for ranging over a map, and the order
may differ from call to call). -/
def templateSettingsOver (order : List (GoString × Task)) : GoMap TaskTemplateSettings :=
  order.foldl (fun settings e => settings.set e.1 (taskSettings e.2)) GoMap.empty

/-- The names of `names` whose task is grouped under `g`, in the order of `names`. -/
def TaskRegistry.groupMembers (r : TaskRegistry) (names : List GoString) (g : GoString) :
    List GoString :=
  names.filter (fun n => decide (r.groupOf n = some g))

/-- The value the map `groups` of `ListItems` holds for `g` once the first loop
has passed over `names`: absent when no name is in group `g`. -/
def TaskRegistry.groupEntry (r : TaskRegistry) (names : List GoString) (g : GoString) :
    Option (List GoString) :=
  if r.groupMembers names g = [] then none else some (r.groupMembers names g)

/-- The slice `items` of `ListItems` once the first loop has passed over `names`. -/
def TaskRegistry.standaloneItems (r : TaskRegistry) (names : List GoString) :
    List TaskListItem :=
  (names.filter (fun n => decide (r.groupOf n = none))).map standaloneItem

/-! ## Test data (`fxcore/testdata/tasks/grouped_task.go`) -/

/-- The `NewGroupedTask` of the test data. -/
def NewGroupedTask (name group : GoString) : Task :=
  { Name := name
    Run := fun _ _ => { Success := true, Message := str "grouped task " ++ name, Details := none }
    Group := some group
    TemplateSettings := none }

/-- A task that implements `Task` only and returns a fixed result. -/
def plainTask (name : GoString) (result : TaskResult) : Task :=
  { Name := name, Run := fun _ _ => result, Group := none, TemplateSettings := none }

/-- The test registry of `task_test.go` reduced to its names and fixed results:
tasks "success", "error" and "template-settings", none of them grouped. -/
def demoRegistry : TaskRegistry :=
  NewTaskRegistry ⟨[
    plainTask (str "success") { Success := true, Message := str "task success", Details := none },
    plainTask (str "error") { Success := false, Message := str "task error", Details := none },
    plainTask (str "template-settings") { Success := true, Message := str "ok", Details := none }]⟩

/-- The registry of the test "list items with groups" of `task_test.go`:
standalone "success" and "error", "alpha" and "beta" in "my group", "gamma"
in "other group". -/
def groupedRegistry : TaskRegistry :=
  NewTaskRegistry ⟨[
    plainTask (str "success") { Success := true, Message := str "task success", Details := none },
    NewGroupedTask (str "alpha") (str "my group"),
    NewGroupedTask (str "beta") (str "my group"),
    NewGroupedTask (str "gamma") (str "other group"),
    plainTask (str "error") { Success := false, Message := str "task error", Details := none }]⟩

/-- The list the test "list items with groups" expects for `groupedRegistry`. -/
def groupedItems : List TaskListItem :=
  [{ Name := str "error", IsGroup := false, Tasks := [] },
   { Name := str "my group", IsGroup := true, Tasks := [str "alpha", str "beta"] },
   { Name := str "other group", IsGroup := true, Tasks := [str "gamma"] },
   { Name := str "success", IsGroup := false, Tasks := [] }]

/-- A task that implements `Task` and `TaskWithTemplateSettings` with method `f`. -/
def settingsTask (name : GoString) (f : TaskTemplateSettings → TaskTemplateSettings) : Task :=
  { Name := name
    Run := fun _ _ => { Success := true, Message := str "ok", Details := none }
    Group := none
    TemplateSettings := some f }

/-- The registry of the test "template settings" of `task_test.go`: "success" and
"error" without custom settings, "template-settings" with the custom
placeholder, default content and rows and without content escaping. -/
def settingsRegistry : TaskRegistry :=
  NewTaskRegistry ⟨[
    plainTask (str "success") { Success := true, Message := str "task success", Details := none },
    plainTask (str "error") { Success := false, Message := str "task error", Details := none },
    settingsTask (str "template-settings") (fun s =>
      { s with Placeholder := str "Custom placeholder", DefaultValue := str "Default content",
               Rows := 5, EscapeContent := false })]⟩

/-- A task whose settings provider sets the placeholder and the rows and leaves
the other fields as it finds them. -/
def placeholderRowsTask : Task :=
  settingsTask (str "template-settings") (fun s =>
    { s with Placeholder := str "Custom placeholder", Rows := 5 })

/-- A registry with a plain task and `placeholderRowsTask`. -/
def placeholderRowsRegistry : TaskRegistry :=
  NewTaskRegistry ⟨[plainTask (str "success") ⟨true, str "task success", none⟩,
    placeholderRowsTask]⟩

/-- No registered task outside any group is registered under a name that is the
group label of a registered grouped task. -/
def TaskRegistry.NoLabelClash (r : TaskRegistry) : Prop :=
  ∀ e ∈ r.tasks.entries, e.2.Group = none → ∀ e' ∈ r.tasks.entries, e'.2.Group ≠ some e.1

/-- A registry of thirteen tasks: the standalone tasks "a", "b", "c", "d" and
"m", and the tasks "u0" to "u7", one in each of the groups "m", "n", "o", "p",
"q", "r", "s" and "t".  The standalone task "m" is named as the first group is
labelled, and `ListItems` has thirteen items to sort. -/
def clashRegistry : TaskRegistry :=
  NewTaskRegistry ⟨[
    plainTask (str "a") ⟨true, str "done", none⟩,
    plainTask (str "b") ⟨true, str "done", none⟩,
    plainTask (str "c") ⟨true, str "done", none⟩,
    plainTask (str "d") ⟨true, str "done", none⟩,
    plainTask (str "m") ⟨true, str "done", none⟩,
    NewGroupedTask (str "u0") (str "m"),
    NewGroupedTask (str "u1") (str "n"),
    NewGroupedTask (str "u2") (str "o"),
    NewGroupedTask (str "u3") (str "p"),
    NewGroupedTask (str "u4") (str "q"),
    NewGroupedTask (str "u5") (str "r"),
    NewGroupedTask (str "u6") (str "s"),
    NewGroupedTask (str "u7") (str "t")]⟩

/-- The entries of the map `groups` of `ListItems` for `clashRegistry`, in the
order in which the first loop inserts them. -/
def clashGroups : List (GoString × List GoString) :=
  [(str "m", [str "u0"]), (str "n", [str "u1"]), (str "o", [str "u2"]),
   (str "p", [str "u3"]), (str "q", [str "u4"]), (str "r", [str "u5"]),
   (str "s", [str "u6"]), (str "t", [str "u7"])]

/-- The standalone items of `clashRegistry`, as the first loop of `ListItems`
leaves them in `items`. -/
def clashStandalone : List TaskListItem :=
  [standaloneItem (str "a"), standaloneItem (str "b"), standaloneItem (str "c"),
   standaloneItem (str "d")]

/-- The items of the groups "n" to "t" of `clashRegistry`, by label. -/
def clashLaterGroups : List TaskListItem :=
  (clashGroups.drop 1).map groupItem

/-- The slice `items` of `ListItems` for `clashRegistry` as it reaches
`sort.Slice` when the range over `groups` starts at the last entry and wraps
around: the five standalone items, the group "t", then the groups "m" to "s". -/
def clashItemsRotated : List TaskListItem :=
  clashStandalone ++ [standaloneItem (str "m")] ++ (clashGroups.rotate 7).map groupItem

/-- A grouped task "a" of group "g" followed by a standalone task "a". -/
def overwrittenTasks : List Task :=
  [NewGroupedTask (str "a") (str "g"), plainTask (str "a") ⟨true, str "later", none⟩]

/-- A registry with one task "a" grouped under the empty label. -/
def emptyLabelRegistry : TaskRegistry :=
  NewTaskRegistry ⟨[NewGroupedTask (str "a") (str "")]⟩

end Fxcore

/-!
# The HTTP server composition engine (`fxhttpserver`)

Of this module only the tests (`fxhttpserver/module_test.go`) are among the
source files.  The engine is therefore modelled from the design document (§3,
§4.1 to §4.4, §7); the tests give the constants the document leaves open (the
text of the startup error, the name of the request counter).

A request is served by explicit state passing: the middleware of each slot class
runs in registration order on the request path and appends one `Step` each; the
router dispatches on the path the global-pre middleware leaves; the outcome of
the handler (a response, a returned error, or a panic) goes through the error
handler; one access-log record, one metric sample and one trace span are
produced.  A middleware of the model runs and hands over to the next stage; it
neither answers the request itself nor changes the response.
-/

namespace Fxhttpserver

open Fxcore (GoString str)

/-! ## Method strings (§4.1) -/

/-- Modelled from the spec: the cutting of a comma-separated method string into
its tokens (none of the module's code is at hand); it is `strings.Split` of Go:
"GET,POST" gives "GET" and "POST", a string without the separator gives itself. -/
def splitOn (sep : Nat) : GoString → List GoString
  | [] => [[]]
  | b :: rest =>
    if b = sep then [] :: splitOn sep rest
    else
      match splitOn sep rest with
      | [] => [[b]]
      | t :: ts => (b :: t) :: ts

/-- Modelled from the spec: the canonical (upper case) form of one byte of a
verb; the letters a to z are raised, every other byte is kept. -/
def upperByte (b : Nat) : Nat := if 97 ≤ b ∧ b ≤ 122 then b - 32 else b

/-- Modelled from the spec: the canonical form of a verb token ("invalid" gives
"INVALID", as the tests of invalid methods expect). -/
def toUpper (token : GoString) : GoString := token.map upperByte

/-- Modelled from the spec: the "invalid HTTP method" error of §4.1, which
identifies the offending token; the wording is that of the tests. -/
def invalidMethod (token : GoString) : GoString :=
  str "invalid HTTP method \"" ++ token ++ str "\""

/-- Modelled from the spec: the check of the tokens of a method string against
the known HTTP verbs `known`, from left to right: the canonical verbs, or the
error for the first token that is no known verb. -/
def checkTokens (known : List GoString) : List GoString → Except GoString (List GoString)
  | [] => .ok []
  | t :: ts =>
    if toUpper t ∈ known then
      match checkTokens known ts with
      | .ok verbs => .ok (toUpper t :: verbs)
      | .error e => .error e
    else .error (invalidMethod (toUpper t))

/-- Modelled from the spec: the parsing of a method string (§4.1): "*" means
any known verb, anything else is a comma-separated list of verbs. -/
def parseMethods (known : List GoString) (methods : GoString) :
    Except GoString (List GoString) :=
  if methods = str "*" then .ok known else checkTokens known (splitOn 44 methods)

/-! ## Registrations and the server built from them (§3, §4.1, §4.2) -/

/-- Modelled from the spec: what the engine takes from outside (§1, §6): the
resolved configuration (debug flag, metrics namespace and subsystem), the set of
known HTTP verbs, the matching of a registered path pattern (first argument)
against a request path (second argument), and the stack trace captured for a
panic with a given message. -/
structure Settings where
  debug : Bool
  metricsNamespace : GoString
  metricsSubsystem : GoString
  knownVerbs : List GoString
  matchesPattern : GoString → GoString → Bool
  captureStack : GoString → GoString

/-- Modelled from the spec: the four ordering classes of a middleware (§3,
"Middleware Slot"). -/
inductive SlotClass
  | globalPre
  | global
  | group
  | route
deriving DecidableEq

/-- Modelled from the spec: a registered middleware: a name that tells the
registration, and what it does to the request path when it runs (the identity
for a middleware that leaves the URL alone; a URL rewriting otherwise). -/
structure Middleware where
  name : GoString
  onPath : GoString → GoString

/-- Modelled from the spec: a request as the engine sees it: verb and path. -/
structure Request where
  method : GoString
  path : GoString
deriving DecidableEq

/-- Modelled from the spec: an error on its way to the error handler (§3, §4.4):
the HTTP status it carries, if any, its message, and the stack trace attached to
it, if any. -/
structure HandlerError where
  code : Option Nat
  message : GoString
  stack : Option GoString
deriving DecidableEq

/-- Modelled from the spec: how the execution of a handler ends (§4.4): with a
response, with a returned error, or with a panic of a given message. -/
inductive Outcome
  | respond (status : Nat) (body : GoString)
  | failed (err : HandlerError)
  | panicked (message : GoString)
deriving DecidableEq

/-- Modelled from the spec: a registered handler: a name and its behaviour. -/
structure Handler where
  name : GoString
  run : Request → Outcome

/-- Modelled from the spec: a response body: the text a handler or a custom error
handler wrote, the error body of debug mode (message and stack trace), or the
generic error body of non-debug mode (§4.4). -/
inductive Body
  | text (content : GoString)
  | errorDetail (message : GoString) (stack : Option GoString)
  | generic
deriving DecidableEq

/-- Modelled from the spec: a response: status and body. -/
structure Response where
  status : Nat
  body : Body
deriving DecidableEq

/-- Modelled from the spec: the registration of a route (§3 "Route", §4.1
`RegisterRoute`): method string, path, handler, route-level middleware. -/
structure Route where
  methods : GoString
  path : GoString
  handler : Handler
  middleware : List Middleware

/-- Modelled from the spec: the registration of a group (§3 "Group", §4.1
`RegisterGroup`): path prefix `base`, group-level middleware, routes. -/
structure Group where
  base : GoString
  middleware : List Middleware
  routes : List Route

/-- Modelled from the spec: all registrations supplied at startup (§2, §4.1), each
list in registration order; of the registered error handlers the last is the
active one (§4.4). -/
structure Registrations where
  globalPre : List Middleware
  global : List Middleware
  routes : List Route
  groups : List Group
  errorHandlers : List (HandlerError → Response)

/-- Modelled from the spec: a route of the route table after registration: its
canonical verbs, its full pattern, the middleware of its group (none for a route
outside any group), its own middleware, its handler. -/
structure CompiledRoute where
  verbs : List GoString
  pattern : GoString
  group : List Middleware
  route : List Middleware
  handler : Handler

/-- Modelled from the spec: the server as built once at startup (§4.2, §5). -/
structure Server where
  settings : Settings
  globalPre : List Middleware
  global : List Middleware
  routes : List CompiledRoute
  errorHandler : Option (HandlerError → Response)

/-- Modelled from the spec: the registration of one route under the prefix `base`
and the group middleware `group`; it fails when the method string does (§4.1). -/
def compileRoute (s : Settings) (base : GoString) (group : List Middleware) (r : Route) :
    Except GoString CompiledRoute :=
  match parseMethods s.knownVerbs r.methods with
  | .error e => .error e
  | .ok verbs =>
    .ok { verbs := verbs, pattern := base ++ r.path, group := group, route := r.middleware,
          handler := r.handler }

/-- Modelled from the spec: the registration of a list of routes, in order; the
first failure is the failure of the whole. -/
def compileRoutes (s : Settings) (base : GoString) (group : List Middleware) :
    List Route → Except GoString (List CompiledRoute)
  | [] => .ok []
  | r :: rest =>
    match compileRoute s base group r with
    | .error e => .error e
    | .ok c =>
      match compileRoutes s base group rest with
      | .error e => .error e
      | .ok cs => .ok (c :: cs)

/-- Modelled from the spec: the registration of the groups, in order. -/
def compileGroups (s : Settings) : List Group → Except GoString (List CompiledRoute)
  | [] => .ok []
  | g :: rest =>
    match compileRoutes s g.base g.middleware g.routes with
    | .error e => .error e
    | .ok cs =>
      match compileGroups s rest with
      | .error e => .error e
      | .ok more => .ok (cs ++ more)

/-- Modelled from the spec: the text that startup puts before a registration
error; the wording is that of the tests of invalid methods. -/
def startupFailure : GoString := str "failed to register http server resources: "

/-- Modelled from the spec: startup (§4.1, §6): all registrations are compiled, and
a registration failure aborts startup with the error; there is no server then. -/
def build (s : Settings) (regs : Registrations) : Except GoString Server :=
  match compileRoutes s [] [] regs.routes with
  | .error e => .error (startupFailure ++ e)
  | .ok standalone =>
    match compileGroups s regs.groups with
    | .error e => .error (startupFailure ++ e)
    | .ok grouped =>
      .ok { settings := s, globalPre := regs.globalPre, global := regs.global,
            routes := standalone ++ grouped, errorHandler := regs.errorHandlers.getLast? }

/-! ## Serving a request (§4.2 to §4.4, §7) -/

/-- Modelled from the spec: one stage of the chain that has run for a request: a
middleware of a class, the request-context enrichment, or the handler. -/
inductive Step
  | middleware (cls : SlotClass) (name : GoString)
  | enrichment
  | handler (name : GoString)
deriving DecidableEq

/-- Modelled from the spec: the middleware `ms` of class `cls` running in
registration order on the state `st`: the request path and the stages run so
far. -/
def runClass (cls : SlotClass) (ms : List Middleware) (st : GoString × List Step) :
    GoString × List Step :=
  ms.foldl (fun st m => (m.onPath st.1, st.2 ++ [Step.middleware cls m.name])) st

/-- Modelled from the spec: the result of routing (§4.4, §7): a route, or one of
the routing errors "method not allowed" and "not found". -/
inductive Dispatch
  | found (route : CompiledRoute)
  | methodNotAllowed
  | notFound

/-- Modelled from the spec: routing: among the routes whose pattern matches the
path, the first that accepts the verb; "not found" when no pattern matches,
"method not allowed" when patterns match but none with the verb. -/
def Server.dispatch (s : Server) (method path : GoString) : Dispatch :=
  match s.routes.filter (fun c => s.settings.matchesPattern c.pattern path) with
  | [] => .notFound
  | c :: cs =>
    match (c :: cs).find? (fun c => decide (method ∈ c.verbs)) with
    | some route => .found route
    | none => .methodNotAllowed

/-- Modelled from the spec: the routing error of an unmatched path (404). -/
def notFoundError : HandlerError :=
  { code := some 404, message := str "Not Found", stack := none }

/-- Modelled from the spec: the routing error of an unaccepted verb (405). -/
def methodNotAllowedError : HandlerError :=
  { code := some 405, message := str "Method Not Allowed", stack := none }

/-- Modelled from the spec: the error a recovered panic is converted into (§4.4):
it carries the panic message and, when the debug flag is on, the captured stack
trace. -/
def recovered (s : Settings) (message : GoString) : HandlerError :=
  { code := none, message := message,
    stack := if s.debug then some (s.captureStack message) else none }

/-- Modelled from the spec: the default error handler (§4.4): the status the error
carries, or 500; in debug mode the body has the message and the stack trace, in
non-debug mode it is the generic body. -/
def defaultErrorHandler (debug : Bool) (e : HandlerError) : Response :=
  { status := e.code.getD 500
    body := if debug then Body.errorDetail e.message e.stack else Body.generic }

/-- Modelled from the spec: Error Handler Dispatch (§4.4): the active error handler
is the custom one when one is registered, the default one otherwise. -/
def Server.handleError (s : Server) (e : HandlerError) : Response :=
  match s.errorHandler with
  | some custom => custom e
  | none => defaultErrorHandler s.settings.debug e

/-- Modelled from the spec: the error a request ended with, if any. -/
def Server.errorOf (s : Server) : Outcome → Option HandlerError
  | .respond _ _ => none
  | .failed e => some e
  | .panicked m => some (recovered s.settings m)

/-- Modelled from the spec: the response for an outcome: that of the handler, or
that of the error handler for a returned error or a recovered panic. -/
def Server.respondTo (s : Server) : Outcome → Response
  | .respond status body => { status := status, body := Body.text body }
  | .failed e => s.handleError e
  | .panicked m => s.handleError (recovered s.settings m)

/-- Modelled from the spec: the levels of a log record. -/
inductive LogLevel
  | info
  | warn
  | error
deriving DecidableEq

/-- Modelled from the spec: the level of the access-log record (§4.3): "info" for
2xx and 3xx, "warn" for 4xx, "error" for 5xx. -/
def levelOf (status : Nat) : LogLevel :=
  if 500 ≤ status then LogLevel.error else if 400 ≤ status then LogLevel.warn else LogLevel.info

/-- Modelled from the spec: a log record: the access-log record of a request
(§4.3: level, method, URI, status, and the error when there was one), or a record
with a level and a message. -/
inductive LogRecord
  | access (level : LogLevel) (method uri : GoString) (status : Nat)
      (error : Option HandlerError)
  | message (level : LogLevel) (text : GoString)
deriving DecidableEq

/-- Modelled from the spec: the status class bucket of the request counter (§4.3):
"2xx" for 200, "5xx" for 500. -/
def statusClass (status : Nat) : GoString := str (toString (status / 100)) ++ str "xx"

/-- Modelled from the spec: the name of the request counter (§4.3): the name the
metrics tests read, after the configured namespace and subsystem, each followed
by an underscore when it is not empty. -/
def counterName (s : Settings) : GoString :=
  (if s.metricsNamespace = [] then [] else s.metricsNamespace ++ str "_") ++
    (if s.metricsSubsystem = [] then [] else s.metricsSubsystem ++ str "_") ++
    str "http_server_requests_total"

/-- Modelled from the spec: one increment of the request counter with its labels
(§4.3); the path label is the pattern of the matched route, and `none` stands for
the not-found bucket of unmatched requests (§8). -/
structure MetricSample where
  name : GoString
  method : GoString
  path : Option GoString
  status : GoString
deriving DecidableEq

/-- Modelled from the spec: the trace span of a request (§4.3): its name, the
method, the route pattern when a route matched, the status code, and whether the
span has error status. -/
structure Span where
  name : GoString
  method : GoString
  route : Option GoString
  status : Nat
  failed : Bool
deriving DecidableEq

/-- Modelled from the spec: everything serving one request produces: the response,
the stages that ran, the log records, the metric samples, the closed spans. -/
structure Served where
  response : Response
  steps : List Step
  logs : List LogRecord
  samples : List MetricSample
  spans : List Span
deriving DecidableEq

/-- Modelled from the spec: the log record of the recovery boundary (§4.4): for a
panic, one record at "error" level tagged "[PANIC RECOVER] <message>". -/
def recoveryLogs : Outcome → List LogRecord
  | .panicked m => [LogRecord.message LogLevel.error (str "[PANIC RECOVER] " ++ m)]
  | _ => []

/-- Modelled from the spec: the completion of a request (§4.3, §4.4): the outcome
becomes the response, and the access-log record, the metric sample and the span
are produced from the method, the path as the global-pre middleware left it, the
pattern of the matched route (if any) and the response status. -/
def Server.finish (s : Server) (method path : GoString) (pattern : Option GoString)
    (steps : List Step) (o : Outcome) : Served :=
  { response := s.respondTo o
    steps := steps
    logs := recoveryLogs o ++
      [LogRecord.access (levelOf (s.respondTo o).status) method path (s.respondTo o).status
        (s.errorOf o)]
    samples := [{ name := counterName s.settings, method := method, path := pattern,
                  status := statusClass (s.respondTo o).status }]
    spans := [{ name := method ++ str " " ++ pattern.getD path, method := method,
                route := pattern, status := (s.respondTo o).status,
                failed := (s.errorOf o).isSome }] }

/-- Modelled from the spec: the path of a request after the global-pre middleware. -/
def Server.routedPath (s : Server) (req : Request) : GoString :=
  (runClass SlotClass.globalPre s.globalPre (req.path, [])).1

/-- Modelled from the spec: the state (path and stages) after the global-pre
middleware, the request-context enrichment and the global middleware (§4.2). -/
def Server.globalStage (s : Server) (req : Request) : GoString × List Step :=
  runClass SlotClass.global s.global
    ((runClass SlotClass.globalPre s.globalPre (req.path, [])).1,
      (runClass SlotClass.globalPre s.globalPre (req.path, [])).2 ++ [Step.enrichment])

/-- Modelled from the spec: the state after the group and the route-level
middleware of the route `c`. -/
def Server.routeStage (s : Server) (req : Request) (c : CompiledRoute) : GoString × List Step :=
  runClass SlotClass.route c.route (runClass SlotClass.group c.group (s.globalStage req))

/-- Modelled from the spec: serving one request (§2 data flow, §4.2): global-pre,
enrichment, global, then for a matched route its group and route-level
middleware and its handler, for an unmatched request the routing error.  The
global stages have run when the routing error is raised; what §4.4 and §8 exclude
for an unmatched path is the middleware of groups and routes. -/
def Server.serve (s : Server) (req : Request) : Served :=
  match s.dispatch req.method (s.routedPath req) with
  | .found c =>
    s.finish req.method (s.routedPath req) (some c.pattern)
      ((s.routeStage req c).2 ++ [Step.handler c.handler.name])
      (c.handler.run { method := req.method, path := (s.routeStage req c).1 })
  | .methodNotAllowed =>
    s.finish req.method (s.routedPath req) none (s.globalStage req).2
      (Outcome.failed methodNotAllowedError)
  | .notFound =>
    s.finish req.method (s.routedPath req) none (s.globalStage req).2
      (Outcome.failed notFoundError)

/-- Modelled from the spec: whether a log record is an access-log record. -/
def LogRecord.isAccess : LogRecord → Bool
  | .access _ _ _ _ _ => true
  | .message _ _ => false

/-- Modelled from the spec: a compiled route that comes from a route registered
outside any group. -/
def CompiledRoute.standalone (c : CompiledRoute) (s : Settings) (regs : Registrations) : Prop :=
  ∃ r ∈ regs.routes, compileRoute s [] [] r = .ok c

/-- Modelled from the spec: a compiled route that comes from a route registered
inside the group `g`. -/
def CompiledRoute.inGroup (c : CompiledRoute) (s : Settings) (g : Group) : Prop :=
  ∃ r ∈ g.routes, compileRoute s g.base g.middleware r = .ok c

/-- Modelled from the spec: the chain of a route in the fixed class order of §4.2:
global-pre, enrichment, global, group, route-level, handler, each class in
registration order. -/
def classOrder (globalPre global group route : List Middleware) (h : Handler) : List Step :=
  globalPre.map (fun m => Step.middleware SlotClass.globalPre m.name) ++ [Step.enrichment] ++
    global.map (fun m => Step.middleware SlotClass.global m.name) ++
    group.map (fun m => Step.middleware SlotClass.group m.name) ++
    route.map (fun m => Step.middleware SlotClass.route m.name) ++ [Step.handler h.name]

/-- Modelled from the spec: what C17 states of a request `req` dispatched to the
route `c` whose handler panics with message `m`: status 500, the error-level
record "[PANIC RECOVER] m", one count under "5xx" for the route pattern, and in
debug mode a body with `m` and the stack trace. -/
def PanicContract (s : Server) (req : Request) (c : CompiledRoute) (m : GoString) : Prop :=
  (s.serve req).response.status = 500 ∧
    LogRecord.message LogLevel.error (str "[PANIC RECOVER] " ++ m) ∈ (s.serve req).logs ∧
    (s.serve req).samples =
      [{ name := counterName s.settings, method := req.method, path := some c.pattern,
         status := str "5xx" }] ∧
    (s.settings.debug = true →
      (s.serve req).response.body = Body.errorDetail m (some (s.settings.captureStack m)))

/-- Modelled from the spec: what C18 states of a request `req` whose path `path`
(the path the router sees, §4.2) matches no registered route: status 404, exactly one access-log record, at level
"warn" and with the error field, the span named "<METHOD> <path>", and no group
or route-level middleware among the stages that ran. -/
def NotFoundContract (s : Server) (req : Request) (path : GoString) : Prop :=
  (s.serve req).response.status = 404 ∧
    (∃ uri status err, (s.serve req).logs.filter LogRecord.isAccess =
      [LogRecord.access LogLevel.warn req.method uri status (some err)]) ∧
    (∃ span, (s.serve req).spans = [span] ∧ span.name = req.method ++ str " " ++ path) ∧
    ∀ name, Step.middleware SlotClass.group name ∉ (s.serve req).steps ∧
      Step.middleware SlotClass.route name ∉ (s.serve req).steps

/-! ## Test data (`fxhttpserver/module_test.go`) -/

/-- The environment of the tests: the verbs of `net/http`, patterns without
parameters (a pattern matches the path equal to it), and a stack trace that
starts as the one the panic test reads. -/
def testSettings (debug : Bool) (ns subsystem : GoString) : Settings :=
  { debug := debug
    metricsNamespace := ns
    metricsSubsystem := subsystem
    knownVerbs := [str "CONNECT", str "DELETE", str "GET", str "HEAD", str "OPTIONS",
      str "PATCH", str "POST", str "PUT", str "TRACE"]
    matchesPattern := fun pattern path => decide (pattern = path)
    captureStack := fun m => str "*errors.errorString " ++ m }

/-- The server of a startup, the empty server when startup fails. -/
def started (s : Settings) (regs : Registrations) : Server :=
  match build s regs with
  | .ok server => server
  | .error _ => { settings := s, globalPre := [], global := [], routes := [], errorHandler := none }

/-- A middleware that leaves the URL alone. -/
def plainMiddleware (name : GoString) : Middleware := { name := name, onPath := id }

/-- The bar handler of the tests (`handler.NewTestBarHandler` of the test data,
which is not among the source files): status 200 and the text the tests read in
the body. -/
def barHandler : Handler :=
  { name := str "bar", run := fun _ => Outcome.respond 200 (str "bar: test") }

/-- The baz handler of the tests (`handler.NewTestBazHandler` of the test data,
which is not among the source files): status 200 and the text the tests read in
the body. -/
def bazHandler : Handler :=
  { name := str "baz", run := fun _ => Outcome.respond 200 (str "baz: test") }

/-- The `concreteHandler` of the tests, `c.JSON(http.StatusOK, "concrete")`: status
200 and the JSON encoding of the string, in quotes and followed by a newline. -/
def concreteHandler : Handler :=
  { name := str "concrete", run := fun _ => Outcome.respond 200 (str "\"concrete\"\n") }

/-- The `panicHandler` of the tests. -/
def panicHandler : Handler :=
  { name := str "panic", run := fun _ => Outcome.panicked (str "test panic") }

/-- The registrations of `TestModuleWithAutowiredResources`. -/
def autowiredRegistrations : Registrations :=
  { globalPre := []
    global := [plainMiddleware (str "global")]
    routes := [
      { methods := str "GET", path := str "/bar", handler := barHandler,
        middleware := [plainMiddleware (str "handler")] },
      { methods := str "GET,POST", path := str "/baz", handler := bazHandler,
        middleware := [plainMiddleware (str "handler")] }]
    groups := [
      { base := str "/foo"
        middleware := [plainMiddleware (str "group")]
        routes := [
          { methods := str "GET", path := str "/bar", handler := barHandler,
            middleware := [plainMiddleware (str "handler")] },
          { methods := str "GET,POST", path := str "/baz", handler := bazHandler,
            middleware := [plainMiddleware (str "handler")] }] }]
    errorHandlers := [] }

/-- The server of `TestModuleWithAutowiredResources`. -/
def autowiredServer : Server := started (testSettings false [] []) autowiredRegistrations

/-- The route GET "/bar" of the group "/foo" of the autowired test, as compiled. -/
def fooBarRoute : CompiledRoute :=
  { verbs := [str "GET"], pattern := str "/foo/bar", group := [plainMiddleware (str "group")],
    route := [plainMiddleware (str "handler")], handler := barHandler }

/-- The registrations of `TestModuleWithEchoResources`: a global-pre middleware
that rewrites "/abstract" to "/concrete". -/
def echoRegistrations : Registrations :=
  { globalPre := [
      { name := str "rewrite"
        onPath := fun path => if path = str "/abstract" then str "/concrete" else path }]
    global := []
    routes := [{ methods := str "GET", path := str "/concrete", handler := concreteHandler,
                 middleware := [plainMiddleware (str "cors")] }]
    groups := [{ base := str "/group", middleware := [plainMiddleware (str "secure")],
                 routes := [{ methods := str "GET", path := str "/concrete",
                              handler := concreteHandler,
                              middleware := [plainMiddleware (str "cors")] }] }]
    errorHandlers := [] }

/-- The server of `TestModuleWithEchoResources`. -/
def echoServer : Server := started (testSettings false [] []) echoRegistrations

/-- The registrations of `TestModuleWithPanicRecoveryAndDebug`, with the error
handlers `handlers`. -/
def panicRegistrations (handlers : List (HandlerError → Response)) : Registrations :=
  { globalPre := [], global := []
    routes := [{ methods := str "GET", path := str "/panic", handler := panicHandler,
                 middleware := [] }]
    groups := [], errorHandlers := handlers }

/-- The server of `TestModuleWithPanicRecoveryAndDebug` (debug mode). -/
def panicServer : Server := started (testSettings true [] []) (panicRegistrations [])

/-- Modelled from the spec: an error handler as an application registers it (§3
"Error Handler", §4.1 `RegisterErrorHandler`): a function from the error to a
status and a body, here the status `status` for every error and a text made from
the error message.  It is input of the engine, as a route handler is, and stands
for no code of the repository (the error handler of the tests is in
`testdata/errorhandler`, which is not among the source files). -/
def textErrorHandler (status : Nat) (e : HandlerError) : Response :=
  { status := status, body := Body.text (str "handled: " ++ e.message) }

/-- A server in debug mode with the panic route and the registered error handler
`textErrorHandler status`. -/
def customErrorServer (status : Nat) : Server :=
  started (testSettings true [] []) (panicRegistrations [textErrorHandler status])

/-- The compiled panic route. -/
def panicRoute : CompiledRoute :=
  { verbs := [str "GET"], pattern := str "/panic", group := [], route := [],
    handler := panicHandler }

/-- The server of `TestModuleWithMetricsWithNamespaceAndSubsystem`: namespace
"foo", subsystem "bar", the route GET "/bar". -/
def metricsServer : Server :=
  started (testSettings true (str "foo") (str "bar"))
    { globalPre := [], global := [], groups := [], errorHandlers := []
      routes := [{ methods := str "GET", path := str "/bar", handler := barHandler,
                   middleware := [] }] }

/-- The registrations of `TestModuleWithInvalidHandlerMethods`. -/
def invalidRegistrations : Registrations :=
  { globalPre := [], global := []
    routes := [{ methods := str "invalid", path := str "/concrete", handler := concreteHandler,
                 middleware := [] }]
    groups := [], errorHandlers := [] }

/-- The registrations of `TestModuleWithInvalidHandlersGroupMethods`. -/
def invalidGroupRegistrations : Registrations :=
  { globalPre := [], global := [], routes := []
    groups := [{ base := str "/group", middleware := [plainMiddleware (str "group")],
                 routes := [{ methods := str "invalid", path := str "/concrete",
                              handler := concreteHandler,
                              middleware := [plainMiddleware (str "handler")] }] }]
    errorHandlers := [] }

end Fxhttpserver

namespace Fxcore

/-! ## The order on strings -/

theorem GoString.lt_irrefl (a : GoString) : GoString.lt a a = false := by
  induction a with
  | nil => rfl
  | cons x xs ih => simp [GoString.lt, ih]

theorem GoString.lt_trans {a b c : GoString} (hab : GoString.lt a b = true)
    (hbc : GoString.lt b c = true) : GoString.lt a c = true := by
  induction a generalizing b c with
  | nil =>
    cases b with
    | nil => simp [GoString.lt] at hab
    | cons y ys =>
      cases c with
      | nil => simp [GoString.lt] at hbc
      | cons z zs => rfl
  | cons x xs ih =>
    cases b with
    | nil => simp [GoString.lt] at hab
    | cons y ys =>
      cases c with
      | nil => simp [GoString.lt] at hbc
      | cons z zs =>
        simp only [GoString.lt] at hab hbc ⊢
        split_ifs at hab hbc ⊢ <;> first | rfl | omega | exact ih hab hbc

theorem GoString.eq_of_not_lt {a b : GoString} (hab : GoString.lt a b = false)
    (hba : GoString.lt b a = false) : a = b := by
  induction a generalizing b with
  | nil =>
    cases b with
    | nil => rfl
    | cons y ys => simp [GoString.lt] at hab
  | cons x xs ih =>
    cases b with
    | nil => simp [GoString.lt] at hba
    | cons y ys =>
      simp only [GoString.lt] at hab hba
      by_cases h1 : x < y
      · simp [h1] at hab
      · by_cases h2 : y < x
        · simp [h2] at hba
        · simp only [h1, h2, if_false] at hab hba
          have hxy : x = y := by omega
          rw [hxy, ih hab hba]

theorem GoString.lt_asymm {a b : GoString} (hab : GoString.lt a b = true) :
    GoString.lt b a = false := by
  cases h : GoString.lt b a with
  | false => rfl
  | true =>
    have := GoString.lt_trans hab h
    rw [GoString.lt_irrefl] at this
    exact absurd this (by decide)

theorem GoString.notAfter_total (a b : GoString) :
    GoString.notAfter a b ∨ GoString.notAfter b a := by
  unfold GoString.notAfter
  cases h : GoString.lt b a with
  | false => exact Or.inl rfl
  | true => exact Or.inr (GoString.lt_asymm h)

theorem GoString.notAfter_trans {a b c : GoString} (hab : GoString.notAfter a b)
    (hbc : GoString.notAfter b c) : GoString.notAfter a c := by
  unfold GoString.notAfter at *
  cases hca : GoString.lt c a with
  | false => rfl
  | true =>
    cases hbc2 : GoString.lt b c with
    | true =>
      have := GoString.lt_trans hbc2 hca
      rw [hab] at this
      exact absurd this (by decide)
    | false =>
      have hbeq : b = c := GoString.eq_of_not_lt hbc2 hbc
      rw [hbeq, hca] at hab
      exact absurd hab (by decide)

theorem GoString.le_iff_notAfter (a b : GoString) :
    GoString.le a b = true ↔ GoString.notAfter a b := by
  unfold GoString.le GoString.notAfter
  constructor
  · intro h
    rcases Bool.or_eq_true _ _ ▸ h with h | h
    · exact GoString.lt_asymm h
    · rw [of_decide_eq_true h]
      exact GoString.lt_irrefl b
  · intro h
    cases hab : GoString.lt a b with
    | true => rfl
    | false => simp [GoString.eq_of_not_lt hab h]

theorem GoString.notAfter_antisymm {a b : GoString} (hab : GoString.notAfter a b)
    (hba : GoString.notAfter b a) : a = b :=
  GoString.eq_of_not_lt hba hab

/-! ## Maps: lookup, assignment, keys -/

theorem GoMap.lookup_eq_none_iff {ν : Type} (k : GoString) (l : List (GoString × ν)) :
    GoMap.lookup k l = none ↔ k ∉ l.map Prod.fst := by
  induction l with
  | nil => simp [GoMap.lookup]
  | cons e rest ih =>
    by_cases h : e.1 = k
    · simp [GoMap.lookup, h]
    · have h2 : ¬ k = e.1 := fun hk => h hk.symm
      simp [GoMap.lookup, h, h2, ih]

theorem GoMap.lookup_eq_some_iff {ν : Type} (k : GoString) (v : ν) (l : List (GoString × ν))
    (hl : (l.map Prod.fst).Nodup) : GoMap.lookup k l = some v ↔ (k, v) ∈ l := by
  induction l with
  | nil => simp [GoMap.lookup]
  | cons e rest ih =>
    rw [List.map_cons, List.nodup_cons] at hl
    by_cases h : e.1 = k
    · have hnot : (k, v) ∉ rest := fun hm =>
        hl.1 (List.mem_map.mpr ⟨(k, v), hm, h.symm⟩)
      simp only [GoMap.lookup, h, if_true, List.mem_cons, hnot, or_false, Option.some.injEq]
      constructor
      · intro hv
        rw [← hv, ← h]
      · intro hkv
        rw [← hkv]
    · have hne : (k, v) ≠ e := fun heq => h (by rw [← heq])
      simp only [GoMap.lookup, h, if_false, List.mem_cons, hne, false_or]
      exact ih hl.2

theorem GoMap.get?_eq_some_iff {ν : Type} (m : GoMap ν) (k : GoString) (v : ν) :
    m.get? k = some v ↔ (k, v) ∈ m.entries :=
  GoMap.lookup_eq_some_iff k v m.entries m.nodupKeys

theorem GoMap.get?_eq_none_iff {ν : Type} (m : GoMap ν) (k : GoString) :
    m.get? k = none ↔ k ∉ m.keys :=
  GoMap.lookup_eq_none_iff k m.entries

theorem GoMap.mem_keys_iff {ν : Type} (m : GoMap ν) (k : GoString) :
    k ∈ m.keys ↔ ∃ v, m.get? k = some v := by
  cases h : m.get? k with
  | none => simpa using (GoMap.get?_eq_none_iff m k).mp h
  | some v =>
    have hmem : k ∈ m.keys := by
      by_contra hk
      rw [(GoMap.get?_eq_none_iff m k).mpr hk] at h
      exact absurd h (by simp)
    simpa using hmem

theorem GoMap.get?_empty {ν : Type} (k : GoString) : (GoMap.empty : GoMap ν).get? k = none := rfl

theorem GoMap.get?_set_self {ν : Type} (m : GoMap ν) (k : GoString) (v : ν) :
    (m.set k v).get? k = some v := by
  simp [GoMap.get?, GoMap.set, GoMap.lookup]

theorem GoMap.lookup_filter_ne {ν : Type} (k k' : GoString) (hk : k' ≠ k)
    (l : List (GoString × ν)) :
    GoMap.lookup k' (l.filter (fun e => decide (e.1 ≠ k))) = GoMap.lookup k' l := by
  induction l with
  | nil => rfl
  | cons e rest ih =>
    rw [List.filter_cons]
    by_cases h : e.1 = k
    · have h2 : ¬ e.1 = k' := fun he => hk (he.symm.trans h)
      rw [if_neg (by simp [h]), ih]
      simp only [GoMap.lookup, if_neg h2]
    · rw [if_pos (by simp [h])]
      by_cases h3 : e.1 = k'
      · simp only [GoMap.lookup, if_pos h3]
      · simp only [GoMap.lookup, if_neg h3, ih]

theorem GoMap.get?_set_other {ν : Type} (m : GoMap ν) (k k' : GoString) (v : ν) (hk : k' ≠ k) :
    (m.set k v).get? k' = m.get? k' := by
  have hk2 : ¬ k = k' := fun h => hk h.symm
  simp only [GoMap.get?, GoMap.set, GoMap.lookup, hk2, if_false]
  exact GoMap.lookup_filter_ne k k' hk m.entries

theorem GoMap.get?_set {ν : Type} (m : GoMap ν) (k k' : GoString) (v : ν) :
    (m.set k v).get? k' = if k' = k then some v else m.get? k' := by
  by_cases h : k' = k
  · rw [if_pos h, h]
    exact GoMap.get?_set_self m k v
  · rw [if_neg h]
    exact GoMap.get?_set_other m k k' v h

theorem GoMap.mem_keys_set {ν : Type} (m : GoMap ν) (k k' : GoString) (v : ν) :
    k' ∈ (m.set k v).keys ↔ k' = k ∨ k' ∈ m.keys := by
  rw [GoMap.mem_keys_iff, GoMap.mem_keys_iff, GoMap.get?_set]
  by_cases h : k' = k
  · simp [h]
  · simp [h]

/-! ## `NewTaskRegistry` -/

theorem foldl_set_mem_keys (ts : List Task) (m : GoMap Task) (k : GoString) :
    k ∈ (ts.foldl (fun tasks task => tasks.set task.Name task) m).keys ↔
      k ∈ m.keys ∨ ∃ t ∈ ts, t.Name = k := by
  induction ts generalizing m with
  | nil => simp
  | cons t rest ih =>
    rw [List.foldl_cons, ih, GoMap.mem_keys_set]
    constructor
    · rintro ((h | h) | ⟨u, hu, hk⟩)
      · exact Or.inr ⟨t, List.mem_cons_self _ _, h.symm⟩
      · exact Or.inl h
      · exact Or.inr ⟨u, List.mem_cons_of_mem _ hu, hk⟩
    · rintro (h | ⟨u, hu, hk⟩)
      · exact Or.inl (Or.inr h)
      · rcases List.mem_cons.mp hu with hut | hur
        · exact Or.inl (Or.inl (by rw [← hk, hut]))
        · exact Or.inr ⟨u, hur, hk⟩

theorem foldl_set_get?_of_not_mem (ts : List Task) (m : GoMap Task) (k : GoString)
    (hk : ∀ t ∈ ts, t.Name ≠ k) :
    (ts.foldl (fun tasks task => tasks.set task.Name task) m).get? k = m.get? k := by
  induction ts generalizing m with
  | nil => rfl
  | cons t rest ih =>
    rw [List.foldl_cons, ih _ (fun u hu => hk u (List.mem_cons_of_mem _ hu))]
    exact GoMap.get?_set_other m t.Name k t (fun h => hk t (List.mem_cons_self _ _) h.symm)

theorem NewTaskRegistry_get?_last (pre post : List Task) (t : Task)
    (hpost : ∀ u ∈ post, u.Name ≠ t.Name) :
    (NewTaskRegistry ⟨pre ++ t :: post⟩).tasks.get? t.Name = some t := by
  unfold NewTaskRegistry
  simp only [List.foldl_append, List.foldl_cons]
  rw [foldl_set_get?_of_not_mem post _ t.Name hpost]
  exact GoMap.get?_set_self _ _ _

theorem NewTaskRegistry_mem_keys (ts : List Task) (k : GoString) :
    k ∈ (NewTaskRegistry ⟨ts⟩).tasks.keys ↔ ∃ t ∈ ts, t.Name = k := by
  unfold NewTaskRegistry
  rw [foldl_set_mem_keys]
  simp [GoMap.keys, GoMap.empty]

/-! ## `Names` -/

theorem sortStrings_perm (l : List GoString) : (sortStrings l).Perm l :=
  List.perm_insertionSort _ l

theorem sortStrings_sorted (l : List GoString) :
    (sortStrings l).Pairwise GoString.notAfter :=
  @List.sorted_insertionSort _ GoString.notAfter _ ⟨GoString.notAfter_total⟩
    ⟨fun _ _ _ => GoString.notAfter_trans⟩ l

/-- The result of `sort.Strings` does not depend on the order of its input:
the order in which `Names` ranges over the map is irrelevant. -/
theorem sortStrings_eq_of_perm {l l' : List GoString} (h : l'.Perm l) :
    sortStrings l' = sortStrings l :=
  @List.eq_of_perm_of_sorted _ GoString.notAfter ⟨fun _ _ => GoString.notAfter_antisymm⟩ _ _
    (((sortStrings_perm l').trans h).trans (sortStrings_perm l).symm)
    (sortStrings_sorted l') (sortStrings_sorted l)

theorem sortStrings_strict {l : List GoString} (h : l.Nodup) :
    (sortStrings l).Pairwise (fun a b => GoString.lt a b = true) := by
  have hnd : (sortStrings l).Pairwise (fun a b => a ≠ b) :=
    (sortStrings_perm l).nodup_iff.mpr h
  refine ((sortStrings_sorted l).and hnd).imp ?_
  rintro a b ⟨hab, hne⟩
  cases hlt : GoString.lt a b with
  | true => rfl
  | false => exact absurd (GoString.eq_of_not_lt hlt hab) hne

theorem TaskRegistry.mem_Names (r : TaskRegistry) (s : GoString) :
    s ∈ r.Names ↔ s ∈ r.tasks.keys :=
  (sortStrings_perm r.tasks.keys).mem_iff

theorem TaskRegistry.Names_nodup (r : TaskRegistry) : r.Names.Nodup :=
  (sortStrings_perm r.tasks.keys).nodup_iff.mpr r.tasks.nodupKeys

theorem TaskRegistry.Names_strict (r : TaskRegistry) :
    r.Names.Pairwise (fun a b => GoString.lt a b = true) :=
  sortStrings_strict r.tasks.nodupKeys

/-- A strictly ascending list with the same members as `Names()` is `Names()`. -/
theorem TaskRegistry.Names_eq_of_mem_iff (r : TaskRegistry) (l : List GoString)
    (hl : l.Pairwise (fun a b => GoString.lt a b = true)) (hmem : ∀ s, s ∈ r.Names ↔ s ∈ l) :
    r.Names = l := by
  have hnd : l.Nodup := hl.imp (fun {a b} hab heq => by
    rw [heq, GoString.lt_irrefl] at hab
    exact absurd hab (by decide))
  exact @List.eq_of_perm_of_sorted _ GoString.notAfter ⟨fun _ _ => GoString.notAfter_antisymm⟩
    _ _ ((List.perm_ext_iff_of_nodup r.Names_nodup hnd).mpr hmem)
    (sortStrings_sorted _) (hl.imp (fun hab => GoString.lt_asymm hab))

/-! ## Claims on `Run`, `NewTaskRegistry` and `Names` -/

/-- C1: for every registry, context, input and every name that is not a
registered name, `Run` returns the failure result with message
`"task " + name + " not found"` and nil details; `Run` is a total function,
so it returns a value in every case. -/
theorem Run_not_found (r : TaskRegistry) (ctx : Context) (name : GoString) (input : List Nat)
    (h : name ∉ r.tasks.keys) :
    r.Run ctx name input =
      { Success := false, Message := str "task " ++ name ++ str " not found", Details := none } := by
  unfold TaskRegistry.Run
  rw [(GoMap.get?_eq_none_iff r.tasks name).mpr h]

theorem Run_not_found_witness :
    str "invalid" ∉ demoRegistry.tasks.keys ∧
      demoRegistry.Run ⟨[]⟩ (str "invalid") (str "test input") =
        { Success := false, Message := str "task invalid not found", Details := none } :=
  ⟨by decide, (Run_not_found demoRegistry ⟨[]⟩ (str "invalid") (str "test input")
    (by decide)).trans (by decide)⟩

/-- C2: for every registry and every task registered under a name, `Run` on
that name returns exactly the result of that task's own `Run` on the same
context and input. -/
theorem Run_registered (r : TaskRegistry) (ctx : Context) (name : GoString) (input : List Nat)
    (task : Task) (h : (name, task) ∈ r.tasks.entries) :
    r.Run ctx name input = task.Run ctx input := by
  unfold TaskRegistry.Run
  rw [(GoMap.get?_eq_some_iff r.tasks name task).mpr h]

theorem Run_registered_witness :
    (str "error", plainTask (str "error") ⟨false, str "task error", none⟩) ∈
        demoRegistry.tasks.entries ∧
      demoRegistry.Run ⟨[]⟩ (str "error") (str "test input") =
        { Success := false, Message := str "task error", Details := none } :=
  ⟨(GoMap.get?_eq_some_iff _ _ _).mp rfl,
    Run_registered demoRegistry ⟨[]⟩ (str "error") (str "test input")
      (plainTask (str "error") ⟨false, str "task error", none⟩)
      ((GoMap.get?_eq_some_iff _ _ _).mp rfl)⟩

/-- C3: `NewTaskRegistry` is a total function, and when several tasks of the
list share a name, `Run` on that name returns the result of the last of them
(the one after which no task of that name follows). -/
theorem NewTaskRegistry_last_wins (pre post : List Task) (t : Task) (ctx : Context)
    (input : List Nat) (hpost : ∀ u ∈ post, u.Name ≠ t.Name) :
    (NewTaskRegistry ⟨pre ++ t :: post⟩).Run ctx t.Name input = t.Run ctx input := by
  unfold TaskRegistry.Run
  rw [NewTaskRegistry_get?_last pre post t hpost]

theorem NewTaskRegistry_last_wins_witness :
    (∀ u ∈ [plainTask (str "b") ⟨true, str "other", none⟩],
        u.Name ≠ (plainTask (str "a") ⟨false, str "second", none⟩).Name) ∧
      (NewTaskRegistry ⟨[plainTask (str "a") ⟨true, str "first", none⟩,
          plainTask (str "a") ⟨false, str "second", none⟩,
          plainTask (str "b") ⟨true, str "other", none⟩]⟩).Run ⟨[]⟩ (str "a") [] =
        ⟨false, str "second", none⟩ :=
  have hpost : ∀ u ∈ [plainTask (str "b") ⟨true, str "other", none⟩],
      u.Name ≠ (plainTask (str "a") ⟨false, str "second", none⟩).Name := by
    intro u hu
    rw [List.mem_singleton.mp hu]
    decide
  ⟨hpost, NewTaskRegistry_last_wins [plainTask (str "a") ⟨true, str "first", none⟩]
    [plainTask (str "b") ⟨true, str "other", none⟩]
    (plainTask (str "a") ⟨false, str "second", none⟩) ⟨[]⟩ [] hpost⟩

/-- C4: for every list of tasks, `Names()` of the registry built from it is
strictly ascending in the byte-wise order (every earlier name is less than
every later one), hence without repetition; and it is the same list for every
order in which the tasks are supplied. -/
theorem Names_strictly_ascending (ts : List Task) :
    (NewTaskRegistry ⟨ts⟩).Names.Pairwise (fun a b => GoString.lt a b = true) ∧
      (NewTaskRegistry ⟨ts⟩).Names.Nodup ∧
      ∀ ts' : List Task, ts'.Perm ts → (NewTaskRegistry ⟨ts'⟩).Names = (NewTaskRegistry ⟨ts⟩).Names := by
  refine ⟨TaskRegistry.Names_strict _, TaskRegistry.Names_nodup _, fun ts' hperm => ?_⟩
  refine TaskRegistry.Names_eq_of_mem_iff _ _ (TaskRegistry.Names_strict _) (fun s => ?_)
  rw [TaskRegistry.mem_Names, TaskRegistry.mem_Names, NewTaskRegistry_mem_keys,
    NewTaskRegistry_mem_keys]
  exact ⟨fun ⟨t, ht, hs⟩ => ⟨t, hperm.mem_iff.mp ht, hs⟩,
    fun ⟨t, ht, hs⟩ => ⟨t, hperm.mem_iff.mpr ht, hs⟩⟩

/-- C5: for every list of tasks and every string `s`, `s` occurs in `Names()`
of the registry built from the list if and only if some task of the list has
name `s`. -/
theorem mem_Names_iff (ts : List Task) (s : GoString) :
    s ∈ (NewTaskRegistry ⟨ts⟩).Names ↔ ∃ t ∈ ts, t.Name = s := by
  rw [TaskRegistry.mem_Names, NewTaskRegistry_mem_keys]

/-! ## The first loop of `ListItems` -/

theorem TaskRegistry.groupMembers_append (r : TaskRegistry) (pre : List GoString)
    (n g : GoString) :
    r.groupMembers (pre ++ [n]) g =
      if r.groupOf n = some g then r.groupMembers pre g ++ [n] else r.groupMembers pre g := by
  unfold TaskRegistry.groupMembers
  rw [List.filter_append]
  by_cases h : r.groupOf n = some g
  · simp [h]
  · simp [h]

theorem TaskRegistry.getD_groupEntry (r : TaskRegistry) (names : List GoString) (g : GoString) :
    (r.groupEntry names g).getD [] = r.groupMembers names g := by
  unfold TaskRegistry.groupEntry
  by_cases h : r.groupMembers names g = []
  · rw [if_pos h, h]
    rfl
  · rw [if_neg h]
    rfl

/-- One pass of the first loop keeps the loop invariant: `groups` holds, for
every label, the names seen so far in that group, and `items` the names seen
so far outside any group. -/
theorem TaskRegistry.listStep_invariant (r : TaskRegistry) (st : ListState)
    (pre : List GoString) (n : GoString)
    (hg : ∀ g, st.1.get? g = r.groupEntry pre g) (hi : st.2 = r.standaloneItems pre) :
    (∀ g, (r.listStep st n).1.get? g = r.groupEntry (pre ++ [n]) g) ∧
      (r.listStep st n).2 = r.standaloneItems (pre ++ [n]) := by
  unfold TaskRegistry.listStep
  cases hn : r.groupOf n with
  | none =>
    refine ⟨fun g => ?_, ?_⟩
    · have hm : r.groupMembers (pre ++ [n]) g = r.groupMembers pre g := by
        rw [TaskRegistry.groupMembers_append, hn, if_neg (by simp)]
      show st.1.get? g = r.groupEntry (pre ++ [n]) g
      rw [hg g, TaskRegistry.groupEntry, TaskRegistry.groupEntry, hm]
    · simp only [hi, TaskRegistry.standaloneItems, List.filter_append, List.map_append]
      simp [hn]
  | some g0 =>
    refine ⟨fun g => ?_, ?_⟩
    · simp only [GoMap.get?_set, hg g0, TaskRegistry.getD_groupEntry]
      by_cases hgg : g = g0
      · rw [if_pos hgg, hgg]
        simp [TaskRegistry.groupEntry, TaskRegistry.groupMembers_append, hn]
      · rw [if_neg hgg, hg g]
        have hne : ¬ some g0 = some g := fun h => hgg (Option.some.inj h).symm
        simp only [TaskRegistry.groupEntry, TaskRegistry.groupMembers_append, hn, if_neg hne]
    · simp only [hi, TaskRegistry.standaloneItems, List.filter_append, List.map_append]
      simp [hn]

theorem TaskRegistry.foldl_listStep_invariant (r : TaskRegistry) (l : List GoString) :
    ∀ (st : ListState) (pre : List GoString),
      (∀ g, st.1.get? g = r.groupEntry pre g) → st.2 = r.standaloneItems pre →
      (∀ g, (l.foldl r.listStep st).1.get? g = r.groupEntry (pre ++ l) g) ∧
        (l.foldl r.listStep st).2 = r.standaloneItems (pre ++ l) := by
  induction l with
  | nil =>
    intro st pre hg hi
    simpa using And.intro hg hi
  | cons n rest ih =>
    intro st pre hg hi
    have hstep := r.listStep_invariant st pre n hg hi
    have := ih (r.listStep st n) (pre ++ [n]) hstep.1 hstep.2
    simpa using this

/-- After the first loop, `groups` maps every label to the registered names of
that group in the order of `Names()`, and holds no entry for any other label. -/
theorem TaskRegistry.listCollect_groups (r : TaskRegistry) (g : GoString) :
    r.listCollect.1.get? g = r.groupEntry r.Names g := by
  have := (r.foldl_listStep_invariant r.Names (GoMap.empty, []) [] (fun _ => rfl) rfl).1 g
  simpa [TaskRegistry.listCollect] using this

/-- After the first loop, `items` holds one item per name outside any group, in
the order of `Names()`. -/
theorem TaskRegistry.listCollect_items (r : TaskRegistry) :
    r.listCollect.2 = r.standaloneItems r.Names := by
  have := (r.foldl_listStep_invariant r.Names (GoMap.empty, []) [] (fun _ => rfl) rfl).2
  simpa [TaskRegistry.listCollect] using this

theorem TaskRegistry.mem_groupMembers (r : TaskRegistry) (g n : GoString) :
    n ∈ r.groupMembers r.Names g ↔ ∃ t, (n, t) ∈ r.tasks.entries ∧ t.Group = some g := by
  unfold TaskRegistry.groupMembers TaskRegistry.groupOf
  rw [List.mem_filter, decide_eq_true_eq, TaskRegistry.mem_Names]
  constructor
  · rintro ⟨_, hgrp⟩
    cases hget : r.tasks.get? n with
    | none => rw [hget] at hgrp; exact absurd hgrp (by simp)
    | some t =>
      rw [hget] at hgrp
      exact ⟨t, (GoMap.get?_eq_some_iff _ _ _).mp hget, hgrp⟩
  · rintro ⟨t, ht, hgrp⟩
    have hget := (GoMap.get?_eq_some_iff _ _ _).mpr ht
    refine ⟨(GoMap.mem_keys_iff _ _).mpr ⟨t, hget⟩, ?_⟩
    rw [hget]
    exact hgrp

theorem TaskRegistry.mem_listCollect_groups (r : TaskRegistry) (g : GoString)
    (tasks : List GoString) :
    (g, tasks) ∈ r.listCollect.1.entries ↔
      tasks = r.groupMembers r.Names g ∧ r.groupMembers r.Names g ≠ [] := by
  rw [← GoMap.get?_eq_some_iff, TaskRegistry.listCollect_groups, TaskRegistry.groupEntry]
  by_cases h : r.groupMembers r.Names g = []
  · simp [h]
  · simp [h, eq_comm]

/-! ## `sort.Slice` on the items -/

theorem itemLess_total (a b : TaskListItem) : itemLess b a = false ∨ itemLess a b = false :=
  GoString.notAfter_total a.Name b.Name

theorem itemLess_trans {a b c : TaskListItem} (hab : itemLess b a = false)
    (hbc : itemLess c b = false) : itemLess c a = false :=
  GoString.notAfter_trans (a := a.Name) (b := b.Name) (c := c.Name) hab hbc

/-- The executable `sortSlice` meets the contract of `sort.Slice`. -/
theorem sortSlice_isResult (l : List TaskListItem) :
    sortSliceResult itemLess l (sortSlice itemLess l) :=
  ⟨List.perm_insertionSort _ l,
    @List.sorted_insertionSort _ (fun a b => itemLess b a = false) _
      ⟨itemLess_total⟩ ⟨fun _ _ _ => itemLess_trans⟩ l⟩

/-- When the names of the items are pairwise different, `sort.Slice` has one
possible result only. -/
theorem sortSliceResult_unique {l out₁ out₂ : List TaskListItem}
    (hnd : (l.map TaskListItem.Name).Nodup)
    (h₁ : sortSliceResult itemLess l out₁) (h₂ : sortSliceResult itemLess l out₂) :
    out₁ = out₂ := by
  have hinj := List.inj_on_of_nodup_map hnd
  have key : ∀ out, sortSliceResult itemLess l out →
      out.Pairwise (fun a b => itemLess b a = false ∧ (a.Name = b.Name → a = b)) := by
    intro out h
    refine h.2.imp_of_mem ?_
    intro a b ha hb hab
    exact ⟨hab, fun hn => hinj (h.1.mem_iff.mp ha) (h.1.mem_iff.mp hb) hn⟩
  refine @List.eq_of_perm_of_sorted _
    (fun a b => itemLess b a = false ∧ (a.Name = b.Name → a = b)) ⟨?_⟩ _ _
    (h₁.1.trans h₂.1.symm) (key out₁ h₁) (key out₂ h₂)
  intro a b hab hba
  exact hab.2 (GoString.eq_of_not_lt hba.1 hab.1)

/-! ## The possible results of `ListItems` -/

/-- The order in which the second loop ranges over `groups` does not change
the set of possible results. -/
theorem TaskRegistry.ListItemsResult_iff (r : TaskRegistry) (out : List TaskListItem) :
    r.ListItemsResult out ↔
      sortSliceResult itemLess
        (r.listCollect.2 ++ r.listCollect.1.entries.map groupItem) out := by
  constructor
  · rintro ⟨order, horder, hperm, hsorted⟩
    exact ⟨hperm.trans ((horder.map groupItem).append_left _), hsorted⟩
  · intro h
    exact ⟨_, List.Perm.refl _, h⟩

/-- `ListItems` returns: the executable `ListItems` is one of the possible results. -/
theorem TaskRegistry.ListItems_isResult (r : TaskRegistry) : r.ListItemsResult r.ListItems :=
  (r.ListItemsResult_iff _).mpr (sortSlice_isResult _)

theorem TaskRegistry.mem_of_ListItemsResult {r : TaskRegistry} {out : List TaskListItem}
    (h : r.ListItemsResult out) (i : TaskListItem) :
    i ∈ out ↔ i ∈ r.standaloneItems r.Names ∨
      ∃ e ∈ r.listCollect.1.entries, groupItem e = i := by
  rw [((r.ListItemsResult_iff out).mp h).1.mem_iff, List.mem_append, List.mem_map,
    TaskRegistry.listCollect_items]

theorem TaskRegistry.standaloneItems_not_group (r : TaskRegistry) (names : List GoString)
    (i : TaskListItem) (hi : i ∈ r.standaloneItems names) : i.IsGroup = false := by
  unfold TaskRegistry.standaloneItems at hi
  obtain ⟨n, _, hn⟩ := List.mem_map.mp hi
  rw [← hn]
  rfl

/-- The entries of a map whose key is `k`: the one entry `get?` finds, if any. -/
theorem GoMap.filter_key (k : GoString) {ν : Type} (l : List (GoString × ν))
    (hl : (l.map Prod.fst).Nodup) :
    l.filter (fun e => decide (e.1 = k)) =
      match GoMap.lookup k l with
      | some v => [(k, v)]
      | none => [] := by
  induction l with
  | nil => rfl
  | cons e rest ih =>
    rw [List.map_cons, List.nodup_cons] at hl
    rw [List.filter_cons]
    by_cases h : e.1 = k
    · have hnone : GoMap.lookup k rest = none :=
        (GoMap.lookup_eq_none_iff k rest).mpr (h ▸ hl.1)
      have hrest := ih hl.2
      rw [hnone] at hrest
      rw [if_pos (by simp [h]), hrest]
      simp only [GoMap.lookup, if_pos h]
      rw [← h]
    · rw [if_neg (by simp [h]), ih hl.2]
      simp only [GoMap.lookup, if_neg h]

theorem TaskRegistry.filter_group_of_result {r : TaskRegistry} {out : List TaskListItem}
    (h : r.ListItemsResult out) (g : GoString) :
    out.filter (fun i => i.IsGroup && decide (i.Name = g)) =
      match r.groupEntry r.Names g with
      | some tasks => [{ Name := g, IsGroup := true, Tasks := tasks }]
      | none => [] := by
  have hperm := (((r.ListItemsResult_iff out).mp h).1).filter
    (fun i => i.IsGroup && decide (i.Name = g))
  have hitems : (r.listCollect.2).filter (fun i => i.IsGroup && decide (i.Name = g)) = [] := by
    rw [List.filter_eq_nil_iff]
    intro i hi
    rw [TaskRegistry.listCollect_items] at hi
    simp [r.standaloneItems_not_group _ i hi]
  have hfun : ((fun i : TaskListItem => i.IsGroup && decide (i.Name = g)) ∘ groupItem) =
      fun e => decide (e.1 = g) := by
    funext e
    simp [groupItem]
  rw [List.filter_append, hitems, List.nil_append, List.filter_map, hfun,
    GoMap.filter_key g _ r.listCollect.1.nodupKeys] at hperm
  have hget : GoMap.lookup g r.listCollect.1.entries = r.groupEntry r.Names g :=
    r.listCollect_groups g
  rw [hget] at hperm
  cases hentry : r.groupEntry r.Names g with
  | none =>
    rw [hentry] at hperm
    exact List.perm_nil.mp hperm
  | some tasks =>
    rw [hentry] at hperm
    exact List.perm_singleton.mp hperm

theorem groupedRegistry_result : groupedRegistry.ListItemsResult groupedItems := by
  have h := groupedRegistry.ListItems_isResult
  rwa [show groupedRegistry.ListItems = groupedItems by decide] at h

/-! ## Claims on `ListItems` -/

/-- C6: for every registry, every possible result of `ListItems()` is sorted by
item name: of two consecutive items the name of the first is less than or equal
to the name of the second (and so for every earlier and later item), group items
and standalone items together in the one sequence. -/
theorem ListItems_sorted (r : TaskRegistry) (out : List TaskListItem)
    (h : r.ListItemsResult out) :
    out.Chain' (fun a b => GoString.le a.Name b.Name = true) ∧
      out.Pairwise (fun a b => GoString.le a.Name b.Name = true) := by
  have hs : out.Pairwise (fun a b => GoString.le a.Name b.Name = true) :=
    ((r.ListItemsResult_iff out).mp h).2.imp
      (fun hab => (GoString.le_iff_notAfter _ _).mpr hab)
  exact ⟨hs.chain', hs⟩

theorem ListItems_sorted_witness :
    groupedRegistry.ListItemsResult groupedItems ∧
      groupedItems.Chain' (fun a b => GoString.le a.Name b.Name = true) ∧
      groupedItems.Pairwise (fun a b => GoString.le a.Name b.Name = true) :=
  ⟨groupedRegistry_result, ListItems_sorted groupedRegistry groupedItems groupedRegistry_result⟩

/-- C7: for every registry, every possible result of `ListItems()` and every
label `g`: if some registered task is grouped under `g`, the result has exactly
one group item named `g`, and the members of its `Tasks` are exactly the names of
the registered tasks grouped under `g`; if no registered task is grouped under
`g`, the result has no group item named `g`. -/
theorem ListItems_groups (r : TaskRegistry) (out : List TaskListItem)
    (h : r.ListItemsResult out) (g : GoString) :
    ((∃ n t, (n, t) ∈ r.tasks.entries ∧ t.Group = some g) →
      ∃ tasks, out.filter (fun i => i.IsGroup && decide (i.Name = g)) =
          [{ Name := g, IsGroup := true, Tasks := tasks }] ∧
        ∀ n, n ∈ tasks ↔ ∃ t, (n, t) ∈ r.tasks.entries ∧ t.Group = some g) ∧
    ((¬ ∃ n t, (n, t) ∈ r.tasks.entries ∧ t.Group = some g) →
      ∀ i ∈ out, ¬ (i.IsGroup = true ∧ i.Name = g)) := by
  have hf := TaskRegistry.filter_group_of_result h g
  unfold TaskRegistry.groupEntry at hf
  constructor
  · rintro ⟨n, t, hnt⟩
    have hne : r.groupMembers r.Names g ≠ [] :=
      List.ne_nil_of_mem ((r.mem_groupMembers g n).mpr ⟨t, hnt⟩)
    rw [if_neg hne] at hf
    exact ⟨_, hf, fun n => r.mem_groupMembers g n⟩
  · intro hno i hi hig
    have hnil : r.groupMembers r.Names g = [] := by
      rw [List.eq_nil_iff_forall_not_mem]
      intro n hn
      obtain ⟨t, ht⟩ := (r.mem_groupMembers g n).mp hn
      exact hno ⟨n, t, ht⟩
    rw [if_pos hnil] at hf
    have hmem : i ∈ out.filter (fun i => i.IsGroup && decide (i.Name = g)) := by
      rw [List.mem_filter]
      exact ⟨hi, by simp [hig.1, hig.2]⟩
    rw [hf] at hmem
    exact absurd hmem (List.not_mem_nil i)

theorem ListItems_groups_witness :
    groupedRegistry.ListItemsResult groupedItems ∧
    (((∃ n t, (n, t) ∈ groupedRegistry.tasks.entries ∧ t.Group = some (str "my group")) →
      ∃ tasks, groupedItems.filter (fun i => i.IsGroup && decide (i.Name = str "my group")) =
          [{ Name := str "my group", IsGroup := true, Tasks := tasks }] ∧
        ∀ n, n ∈ tasks ↔
          ∃ t, (n, t) ∈ groupedRegistry.tasks.entries ∧ t.Group = some (str "my group")) ∧
    ((¬ ∃ n t, (n, t) ∈ groupedRegistry.tasks.entries ∧ t.Group = some (str "my group")) →
      ∀ i ∈ groupedItems, ¬ (i.IsGroup = true ∧ i.Name = str "my group"))) :=
  ⟨groupedRegistry_result,
    ListItems_groups groupedRegistry groupedItems groupedRegistry_result (str "my group")⟩

/-- C8: for every registry and every group item of a possible result of
`ListItems()`, the item's `Tasks` equals `Names()` filtered to the tasks whose
group is the item's name; it is strictly ascending and without repetition. -/
theorem ListItems_group_tasks (r : TaskRegistry) (out : List TaskListItem)
    (h : r.ListItemsResult out) (i : TaskListItem) (hi : i ∈ out) (hg : i.IsGroup = true) :
    i.Tasks = r.Names.filter (fun n => decide (r.groupOf n = some i.Name)) ∧
      i.Tasks.Pairwise (fun a b => GoString.lt a b = true) ∧ i.Tasks.Nodup := by
  have htasks : i.Tasks = r.Names.filter (fun n => decide (r.groupOf n = some i.Name)) := by
    rcases (TaskRegistry.mem_of_ListItemsResult h i).mp hi with hs | ⟨e, he, hei⟩
    · rw [r.standaloneItems_not_group _ i hs] at hg
      exact absurd hg (by decide)
    · have hmem : (e.1, e.2) ∈ r.listCollect.1.entries := he
      rw [← hei]
      exact ((r.mem_listCollect_groups e.1 e.2).mp hmem).1
  rw [htasks]
  exact ⟨rfl, r.Names_strict.sublist (List.filter_sublist _), r.Names_nodup.filter _⟩

theorem ListItems_group_tasks_witness :
    groupedRegistry.ListItemsResult groupedItems ∧
      (⟨str "my group", true, [str "alpha", str "beta"]⟩ : TaskListItem) ∈ groupedItems ∧
      [str "alpha", str "beta"] =
        groupedRegistry.Names.filter
          (fun n => decide (groupedRegistry.groupOf n = some (str "my group"))) ∧
      [str "alpha", str "beta"].Pairwise (fun a b => GoString.lt a b = true) ∧
      [str "alpha", str "beta"].Nodup :=
  ⟨groupedRegistry_result, by decide,
    ListItems_group_tasks groupedRegistry groupedItems groupedRegistry_result
      ⟨str "my group", true, [str "alpha", str "beta"]⟩ (by decide) rfl⟩

theorem TaskRegistry.groupOf_eq_none_of_no_groups (r : TaskRegistry)
    (hno : ∀ e ∈ r.tasks.entries, e.2.Group = none) (n : GoString) : r.groupOf n = none := by
  unfold TaskRegistry.groupOf
  cases hget : r.tasks.get? n with
  | none => rfl
  | some t => exact hno (n, t) ((GoMap.get?_eq_some_iff _ _ _).mp hget)

/-- The names of the items handed to `sort.Slice` are pairwise different when
no task is grouped (then there is one item per registered name). -/
theorem TaskRegistry.listCollect_of_no_groups (r : TaskRegistry)
    (hno : ∀ e ∈ r.tasks.entries, e.2.Group = none) :
    r.listCollect.2 ++ r.listCollect.1.entries.map groupItem = r.Names.map standaloneItem := by
  have hgrp := r.groupOf_eq_none_of_no_groups hno
  have hentries : r.listCollect.1.entries = [] := by
    rw [List.eq_nil_iff_forall_not_mem]
    rintro ⟨g, tasks⟩ he
    have hne := ((r.mem_listCollect_groups g tasks).mp he).2
    apply hne
    unfold TaskRegistry.groupMembers
    rw [List.filter_eq_nil_iff]
    intro n _
    simp [hgrp n]
  rw [hentries, List.map_nil, List.append_nil, TaskRegistry.listCollect_items,
    TaskRegistry.standaloneItems]
  congr 1
  rw [List.filter_eq_self]
  intro n _
  simp [hgrp n]

/-- C9: for every registry in which no registered task is grouped, the one
possible result of `ListItems()` is `Names()` mapped element by element to
`TaskListItem{Name: name, IsGroup: false, Tasks: nil}`. -/
theorem ListItems_no_groups (r : TaskRegistry) (out : List TaskListItem)
    (h : r.ListItemsResult out) (hno : ∀ e ∈ r.tasks.entries, e.2.Group = none) :
    out = r.Names.map (fun name => { Name := name, IsGroup := false, Tasks := [] }) ∧
      out.length = r.Names.length := by
  have hres := (r.ListItemsResult_iff out).mp h
  rw [r.listCollect_of_no_groups hno] at hres
  have hnames : ((r.Names.map standaloneItem).map TaskListItem.Name) = r.Names := by
    rw [List.map_map]
    exact List.map_id _
  have hself : sortSliceResult itemLess (r.Names.map standaloneItem)
      (r.Names.map standaloneItem) := by
    refine ⟨List.Perm.refl _, ?_⟩
    rw [List.pairwise_map]
    exact r.Names_strict.imp (fun hab => GoString.lt_asymm hab)
  have hout : out = r.Names.map standaloneItem :=
    sortSliceResult_unique (by rw [hnames]; exact r.Names_nodup) hres hself
  refine ⟨hout, ?_⟩
  rw [hout, List.length_map]

theorem ListItems_no_groups_witness :
    demoRegistry.ListItemsResult
        [⟨str "error", false, []⟩, ⟨str "success", false, []⟩,
          ⟨str "template-settings", false, []⟩] ∧
      (∀ e ∈ demoRegistry.tasks.entries, e.2.Group = none) ∧
      ([⟨str "error", false, []⟩, ⟨str "success", false, []⟩,
          ⟨str "template-settings", false, []⟩] : List TaskListItem) =
        demoRegistry.Names.map (fun name => { Name := name, IsGroup := false, Tasks := [] }) ∧
      ([⟨str "error", false, []⟩, ⟨str "success", false, []⟩,
          ⟨str "template-settings", false, []⟩] : List TaskListItem).length =
        demoRegistry.Names.length :=
  have hres : demoRegistry.ListItemsResult
      [⟨str "error", false, []⟩, ⟨str "success", false, []⟩,
        ⟨str "template-settings", false, []⟩] := by
    have h := demoRegistry.ListItems_isResult
    rwa [show demoRegistry.ListItems = [⟨str "error", false, []⟩, ⟨str "success", false, []⟩,
        ⟨str "template-settings", false, []⟩] by decide] at h
  ⟨hres, by decide, ListItems_no_groups demoRegistry _ hres (by decide)⟩

/-! ## The example of the spec: "alpha", "beta" in "my group", standalone "zed" -/

theorem NewTaskRegistry_get?_of_nodup (ts : List Task)
    (hnd : (ts.map Task.Name).Nodup) (t : Task) (ht : t ∈ ts) :
    (NewTaskRegistry ⟨ts⟩).tasks.get? t.Name = some t := by
  obtain ⟨pre, post, hts⟩ := List.append_of_mem ht
  subst hts
  refine NewTaskRegistry_get?_last pre post t ?_
  intro u hu hname
  rw [List.map_append, List.map_cons] at hnd
  have hpost := (List.nodup_cons.mp (List.nodup_append.mp hnd).2.1).1
  exact hpost (List.mem_map.mpr ⟨u, hu, hname⟩)

theorem NewTaskRegistry_groupOf_of_nodup (ts : List Task)
    (hnd : (ts.map Task.Name).Nodup) (t : Task) (ht : t ∈ ts) :
    (NewTaskRegistry ⟨ts⟩).groupOf t.Name = t.Group := by
  unfold TaskRegistry.groupOf
  rw [NewTaskRegistry_get?_of_nodup ts hnd t ht]
  rfl

theorem TaskRegistry.ListItemsResult_alpha_beta_zed (r : TaskRegistry)
    (hnames : r.Names = [str "alpha", str "beta", str "zed"])
    (ha : r.groupOf (str "alpha") = some (str "my group"))
    (hb : r.groupOf (str "beta") = some (str "my group"))
    (hz : r.groupOf (str "zed") = none)
    (out : List TaskListItem) (h : r.ListItemsResult out) :
    out = [{ Name := str "my group", IsGroup := true, Tasks := [str "alpha", str "beta"] },
      { Name := str "zed", IsGroup := false, Tasks := [] }] := by
  have hcollect : r.listCollect.2 ++ r.listCollect.1.entries.map groupItem =
      [{ Name := str "zed", IsGroup := false, Tasks := [] },
        { Name := str "my group", IsGroup := true, Tasks := [str "alpha", str "beta"] }] := by
    unfold TaskRegistry.listCollect
    rw [hnames]
    simp only [List.foldl, TaskRegistry.listStep, ha, hb, hz]
    decide
  have hres := (r.ListItemsResult_iff out).mp h
  rw [hcollect] at hres
  exact sortSliceResult_unique (by decide) hres ⟨by decide, by decide⟩

/-- C10: for the registry built, in any order, from two grouped tasks named
"alpha" and "beta" of group "my group" and one standalone task named "zed", the
one possible result of `ListItems()` is the group item "my group" with tasks
"alpha", "beta" followed by the standalone item "zed". -/
theorem ListItems_alpha_beta_zed (a b z : Task)
    (ha : a.Name = str "alpha") (hag : a.Group = some (str "my group"))
    (hb : b.Name = str "beta") (hbg : b.Group = some (str "my group"))
    (hz : z.Name = str "zed") (hzg : z.Group = none)
    (ts : List Task) (hperm : ts.Perm [a, b, z])
    (out : List TaskListItem) (h : (NewTaskRegistry ⟨ts⟩).ListItemsResult out) :
    out = [{ Name := str "my group", IsGroup := true, Tasks := [str "alpha", str "beta"] },
      { Name := str "zed", IsGroup := false, Tasks := [] }] := by
  have hmap : (ts.map Task.Name).Perm [str "alpha", str "beta", str "zed"] := by
    have := hperm.map Task.Name
    simpa [ha, hb, hz] using this
  have hnd : (ts.map Task.Name).Nodup := hmap.nodup_iff.mpr (by decide)
  have hnames : (NewTaskRegistry ⟨ts⟩).Names = [str "alpha", str "beta", str "zed"] := by
    refine TaskRegistry.Names_eq_of_mem_iff _ _ (by decide) ?_
    intro s
    rw [TaskRegistry.mem_Names, NewTaskRegistry_mem_keys, ← hmap.mem_iff, List.mem_map]
  have hmem : ∀ t, t ∈ [a, b, z] → t ∈ ts := fun t ht => hperm.mem_iff.mpr ht
  have hga := NewTaskRegistry_groupOf_of_nodup ts hnd a (hmem a (by simp))
  have hgb := NewTaskRegistry_groupOf_of_nodup ts hnd b (hmem b (by simp))
  have hgz := NewTaskRegistry_groupOf_of_nodup ts hnd z (hmem z (by simp))
  rw [ha, hag] at hga
  rw [hb, hbg] at hgb
  rw [hz, hzg] at hgz
  exact TaskRegistry.ListItemsResult_alpha_beta_zed _ hnames hga hgb hgz out h

theorem ListItems_alpha_beta_zed_witness :
    [NewGroupedTask (str "beta") (str "my group"), NewGroupedTask (str "alpha") (str "my group"),
        plainTask (str "zed") ⟨true, str "done", none⟩].Perm
      [NewGroupedTask (str "alpha") (str "my group"), NewGroupedTask (str "beta") (str "my group"),
        plainTask (str "zed") ⟨true, str "done", none⟩] ∧
    (NewTaskRegistry ⟨[NewGroupedTask (str "beta") (str "my group"),
        NewGroupedTask (str "alpha") (str "my group"),
        plainTask (str "zed") ⟨true, str "done", none⟩]⟩).ListItems =
      [{ Name := str "my group", IsGroup := true, Tasks := [str "alpha", str "beta"] },
        { Name := str "zed", IsGroup := false, Tasks := [] }] :=
  ⟨List.Perm.swap _ _ _,
    ListItems_alpha_beta_zed (NewGroupedTask (str "alpha") (str "my group"))
      (NewGroupedTask (str "beta") (str "my group")) (plainTask (str "zed") ⟨true, str "done", none⟩)
      rfl rfl rfl rfl rfl rfl _ (List.Perm.swap _ _ _) _ (TaskRegistry.ListItems_isResult _)⟩

/-! ## `TemplateSettings` -/

theorem TaskRegistry.TemplateSettings_eq (r : TaskRegistry) :
    r.TemplateSettings = templateSettingsOver r.tasks.entries := rfl

theorem foldl_settings_get?_of_not_mem (l : List (GoString × Task))
    (m : GoMap TaskTemplateSettings) (k : GoString) (hk : k ∉ l.map Prod.fst) :
    (l.foldl (fun settings e => settings.set e.1 (taskSettings e.2)) m).get? k = m.get? k := by
  induction l generalizing m with
  | nil => rfl
  | cons e rest ih =>
    rw [List.map_cons, List.mem_cons, not_or] at hk
    rw [List.foldl_cons, ih _ hk.2]
    exact GoMap.get?_set_other m e.1 k _ hk.1

theorem foldl_settings_mem_keys (l : List (GoString × Task))
    (m : GoMap TaskTemplateSettings) (k : GoString) :
    k ∈ (l.foldl (fun settings e => settings.set e.1 (taskSettings e.2)) m).keys ↔
      k ∈ m.keys ∨ k ∈ l.map Prod.fst := by
  induction l generalizing m with
  | nil => simp
  | cons e rest ih =>
    rw [List.foldl_cons, ih, GoMap.mem_keys_set, List.map_cons, List.mem_cons]
    constructor
    · rintro ((h | h) | h)
      · exact Or.inr (Or.inl h)
      · exact Or.inl h
      · exact Or.inr (Or.inr h)
    · rintro (h | h | h)
      · exact Or.inl (Or.inr h)
      · exact Or.inl (Or.inl h)
      · exact Or.inr h

/-- Whatever the order of the loop, the entry stored for a registered name is
the settings of the task registered under it. -/
theorem templateSettingsOver_get? (r : TaskRegistry) (order : List (GoString × Task))
    (horder : order.Perm r.tasks.entries) (name : GoString) (t : Task)
    (h : (name, t) ∈ r.tasks.entries) :
    (templateSettingsOver order).get? name = some (taskSettings t) := by
  have hnd : (order.map Prod.fst).Nodup := (horder.map Prod.fst).nodup_iff.mpr r.tasks.nodupKeys
  obtain ⟨pre, post, hsplit⟩ := List.append_of_mem (horder.mem_iff.mpr h)
  subst hsplit
  rw [List.map_append, List.map_cons] at hnd
  have hpost : name ∉ post.map Prod.fst := (List.nodup_cons.mp (List.nodup_append.mp hnd).2.1).1
  unfold templateSettingsOver
  rw [List.foldl_append, List.foldl_cons, foldl_settings_get?_of_not_mem post _ name hpost]
  exact GoMap.get?_set_self _ _ _

theorem templateSettingsOver_mem_keys (r : TaskRegistry) (order : List (GoString × Task))
    (horder : order.Perm r.tasks.entries) (k : GoString) :
    k ∈ (templateSettingsOver order).keys ↔ k ∈ r.Names := by
  unfold templateSettingsOver
  rw [foldl_settings_mem_keys, TaskRegistry.mem_Names]
  have hperm : (order.map Prod.fst).Perm r.tasks.keys := horder.map Prod.fst
  rw [hperm.mem_iff]
  simp [GoMap.keys, GoMap.empty]

theorem templateSettingsOver_length (r : TaskRegistry) (order : List (GoString × Task))
    (horder : order.Perm r.tasks.entries) :
    (templateSettingsOver order).entries.length = r.Names.length := by
  have hperm : (templateSettingsOver order).keys.Perm r.Names :=
    (List.perm_ext_iff_of_nodup (templateSettingsOver order).nodupKeys r.Names_nodup).mpr
      (templateSettingsOver_mem_keys r order horder)
  rw [← hperm.length_eq, GoMap.keys, List.length_map]

/-! ## Claims on `TemplateSettings` -/

/-- C11: for every registry and every registered task without custom template
settings, `TemplateSettings()` maps the task's name to
`DefaultTaskTemplateSettings()`, which is placeholder "Optional input...", empty
default value, 1 row, escaping on; so for every order in which a call ranges
over the map, and whatever other tasks are registered. -/
theorem TemplateSettings_default (r : TaskRegistry) (name : GoString) (t : Task)
    (h : (name, t) ∈ r.tasks.entries) (hnone : t.TemplateSettings = none)
    (order : List (GoString × Task)) (horder : order.Perm r.tasks.entries) :
    (templateSettingsOver order).get? name = some DefaultTaskTemplateSettings ∧
      r.TemplateSettings.get? name = some DefaultTaskTemplateSettings ∧
      DefaultTaskTemplateSettings =
        { Placeholder := str "Optional input...", DefaultValue := str "", Rows := 1,
          EscapeContent := true } := by
  have hset : taskSettings t = DefaultTaskTemplateSettings := by
    unfold taskSettings
    rw [hnone]
  refine ⟨?_, ?_, rfl⟩
  · rw [templateSettingsOver_get? r order horder name t h, hset]
  · rw [r.TemplateSettings_eq, templateSettingsOver_get? r _ (List.Perm.refl _) name t h, hset]

theorem TemplateSettings_default_witness :
    (str "error", plainTask (str "error") ⟨false, str "task error", none⟩) ∈
        settingsRegistry.tasks.entries ∧
      settingsRegistry.TemplateSettings.get? (str "error") =
        some { Placeholder := str "Optional input...", DefaultValue := str "", Rows := 1,
               EscapeContent := true } :=
  ⟨(GoMap.get?_eq_some_iff _ _ _).mp rfl,
    (TemplateSettings_default settingsRegistry (str "error")
      (plainTask (str "error") ⟨false, str "task error", none⟩)
      ((GoMap.get?_eq_some_iff _ _ _).mp rfl) rfl _ (List.Perm.refl _)).2.1⟩

/-- C12: for every registry and every registered task with custom template
settings given by `f`, `TemplateSettings()` maps the task's name to
`f(DefaultTaskTemplateSettings())`, for every order in which a call ranges over the
map; so every field that `f` leaves as it finds it has its default value. -/
theorem TemplateSettings_custom (r : TaskRegistry) (name : GoString) (t : Task)
    (h : (name, t) ∈ r.tasks.entries)
    (f : TaskTemplateSettings → TaskTemplateSettings) (hf : t.TemplateSettings = some f)
    (order : List (GoString × Task)) (horder : order.Perm r.tasks.entries) :
    (templateSettingsOver order).get? name = some (f DefaultTaskTemplateSettings) ∧
      r.TemplateSettings.get? name = some (f DefaultTaskTemplateSettings) ∧
      ∀ (β : Type) (field : TaskTemplateSettings → β), (∀ s, field (f s) = field s) →
        ∃ v, r.TemplateSettings.get? name = some v ∧ field v = field DefaultTaskTemplateSettings := by
  have hset : taskSettings t = f DefaultTaskTemplateSettings := by
    unfold taskSettings
    rw [hf]
  have hr : r.TemplateSettings.get? name = some (f DefaultTaskTemplateSettings) := by
    rw [r.TemplateSettings_eq, templateSettingsOver_get? r _ (List.Perm.refl _) name t h, hset]
  refine ⟨?_, hr, fun β field hfield => ⟨_, hr, hfield _⟩⟩
  rw [templateSettingsOver_get? r order horder name t h, hset]

theorem TemplateSettings_custom_witness :
    (str "template-settings", placeholderRowsTask) ∈ placeholderRowsRegistry.tasks.entries ∧
      placeholderRowsRegistry.TemplateSettings.get? (str "template-settings") =
        some { Placeholder := str "Custom placeholder", DefaultValue := str "", Rows := 5,
               EscapeContent := true } :=
  ⟨(GoMap.get?_eq_some_iff _ _ _).mp rfl,
    (TemplateSettings_custom placeholderRowsRegistry (str "template-settings")
      placeholderRowsTask ((GoMap.get?_eq_some_iff _ _ _).mp rfl) _ rfl _
      (List.Perm.refl _)).2.1⟩

/-- C13: for every registry, `TemplateSettings()` has exactly one entry per
registered name: the keys of the result are the members of `Names()`, no key
occurs twice, and the number of entries is the length of `Names()`; so for every
order in which a call ranges over the map. -/
theorem TemplateSettings_keys (r : TaskRegistry) (order : List (GoString × Task))
    (horder : order.Perm r.tasks.entries) :
    (∀ k, k ∈ (templateSettingsOver order).keys ↔ k ∈ r.Names) ∧
      (templateSettingsOver order).keys.Nodup ∧
      (templateSettingsOver order).entries.length = r.Names.length ∧
      (∀ k, k ∈ r.TemplateSettings.keys ↔ k ∈ r.Names) ∧
      r.TemplateSettings.entries.length = r.Names.length :=
  ⟨templateSettingsOver_mem_keys r order horder, (templateSettingsOver order).nodupKeys,
    templateSettingsOver_length r order horder,
    templateSettingsOver_mem_keys r _ (List.Perm.refl _),
    templateSettingsOver_length r _ (List.Perm.refl _)⟩

theorem TemplateSettings_keys_witness :
    settingsRegistry.tasks.entries.Perm settingsRegistry.tasks.entries ∧
      settingsRegistry.TemplateSettings.entries.length = 3 :=
  ⟨List.Perm.refl _,
    (TemplateSettings_keys settingsRegistry _ (List.Perm.refl _)).2.2.2.2.trans (by decide)⟩

end Fxcore

namespace Fxhttpserver

open Fxcore (GoString str)

/-! ## Method strings -/

theorem checkTokens_ok (known : List GoString) (ts : List GoString)
    (h : ∀ t ∈ ts, toUpper t ∈ known) : checkTokens known ts = .ok (ts.map toUpper) := by
  induction ts with
  | nil => rfl
  | cons t rest ih =>
    have ht : toUpper t ∈ known := h t (List.mem_cons_self _ _)
    simp only [checkTokens, if_pos ht, ih (fun u hu => h u (List.mem_cons_of_mem _ hu)),
      List.map_cons]

/-- The error of a list of tokens names its first token that is no known verb. -/
theorem checkTokens_error (known : List GoString) (ts : List GoString)
    (h : ∃ t ∈ ts, toUpper t ∉ known) :
    ∃ pre t post, ts = pre ++ t :: post ∧ (∀ u ∈ pre, toUpper u ∈ known) ∧
      toUpper t ∉ known ∧ checkTokens known ts = .error (invalidMethod (toUpper t)) := by
  induction ts with
  | nil =>
    obtain ⟨t, ht, _⟩ := h
    exact absurd ht (List.not_mem_nil t)
  | cons t rest ih =>
    by_cases ht : toUpper t ∈ known
    · have hrest : ∃ u ∈ rest, toUpper u ∉ known := by
        obtain ⟨u, hu, hbad⟩ := h
        rcases List.mem_cons.mp hu with hut | hur
        · rw [hut] at hbad
          exact absurd ht hbad
        · exact ⟨u, hur, hbad⟩
      obtain ⟨pre, u, post, hsplit, hpre, hbad, herr⟩ := ih hrest
      refine ⟨t :: pre, u, post, by rw [hsplit, List.cons_append], ?_, hbad, ?_⟩
      · intro v hv
        rcases List.mem_cons.mp hv with hvt | hvp
        · rw [hvt]
          exact ht
        · exact hpre v hvp
      · simp only [checkTokens, if_pos ht, herr]
    · exact ⟨[], t, rest, rfl, fun u hu => absurd hu (List.not_mem_nil u), ht,
        by simp only [checkTokens, if_neg ht]⟩

theorem parseMethods_star (known : List GoString) : parseMethods known (str "*") = .ok known := by
  unfold parseMethods
  rw [if_pos rfl]

theorem parseMethods_list (known : List GoString) (methods : GoString)
    (hm : methods ≠ str "*") :
    parseMethods known methods = checkTokens known (splitOn 44 methods) := by
  unfold parseMethods
  rw [if_neg hm]

/-! ## Startup -/

theorem compileRoute_error_iff (s : Settings) (base : GoString) (group : List Middleware)
    (r : Route) (e : GoString) :
    compileRoute s base group r = .error e ↔ parseMethods s.knownVerbs r.methods = .error e := by
  unfold compileRoute
  cases parseMethods s.knownVerbs r.methods with
  | error e' => simp
  | ok verbs => simp

theorem compileRoute_ok_fields (s : Settings) (base : GoString) (group : List Middleware)
    (r : Route) (c : CompiledRoute) (h : compileRoute s base group r = .ok c) :
    parseMethods s.knownVerbs r.methods = .ok c.verbs ∧ c.pattern = base ++ r.path ∧
      c.group = group ∧ c.route = r.middleware ∧ c.handler = r.handler := by
  unfold compileRoute at h
  cases hp : parseMethods s.knownVerbs r.methods with
  | error e => rw [hp] at h; exact absurd h (by simp)
  | ok verbs =>
    rw [hp] at h
    simp only [Except.ok.injEq] at h
    subst h
    exact ⟨rfl, rfl, rfl, rfl, rfl⟩

theorem compileRoutes_ok (s : Settings) (base : GoString) (group : List Middleware)
    (rs : List Route) (cs : List CompiledRoute) (h : compileRoutes s base group rs = .ok cs) :
    (∀ c, c ∈ cs ↔ ∃ r ∈ rs, compileRoute s base group r = .ok c) ∧
      ∀ r ∈ rs, ∃ c, compileRoute s base group r = .ok c := by
  induction rs generalizing cs with
  | nil =>
    simp only [compileRoutes, Except.ok.injEq] at h
    subst h
    simp
  | cons r rest ih =>
    simp only [compileRoutes] at h
    cases hr : compileRoute s base group r with
    | error e => rw [hr] at h; exact absurd h (by simp)
    | ok c0 =>
      rw [hr] at h
      cases hrest : compileRoutes s base group rest with
      | error e => rw [hrest] at h; exact absurd h (by simp)
      | ok cs0 =>
        rw [hrest] at h
        simp only [Except.ok.injEq] at h
        subst h
        obtain ⟨ih1, ih2⟩ := ih cs0 hrest
        constructor
        · intro c
          rw [List.mem_cons, ih1 c]
          constructor
          · rintro (hc | ⟨r', hr', hc⟩)
            · exact ⟨r, List.mem_cons_self _ _, by rw [hr, hc]⟩
            · exact ⟨r', List.mem_cons_of_mem _ hr', hc⟩
          · rintro ⟨r', hr', hc⟩
            rcases List.mem_cons.mp hr' with heq | hmem
            · rw [heq, hr] at hc
              exact Or.inl (Except.ok.inj hc).symm
            · exact Or.inr ⟨r', hmem, hc⟩
        · intro r' hr'
          rcases List.mem_cons.mp hr' with heq | hmem
          · exact ⟨c0, by rw [heq, hr]⟩
          · exact ih2 r' hmem

theorem compileRoutes_error (s : Settings) (base : GoString) (group : List Middleware)
    (rs : List Route) (e : GoString) (h : compileRoutes s base group rs = .error e) :
    ∃ r ∈ rs, parseMethods s.knownVerbs r.methods = .error e := by
  induction rs with
  | nil => simp [compileRoutes] at h
  | cons r rest ih =>
    simp only [compileRoutes] at h
    cases hr : compileRoute s base group r with
    | error e' =>
      rw [hr] at h
      simp only [Except.error.injEq] at h
      subst h
      exact ⟨r, List.mem_cons_self _ _, (compileRoute_error_iff s base group r e').mp hr⟩
    | ok c0 =>
      rw [hr] at h
      cases hrest : compileRoutes s base group rest with
      | error e' =>
        rw [hrest] at h
        simp only [Except.error.injEq] at h
        subst h
        obtain ⟨r', hr', hp⟩ := ih hrest
        exact ⟨r', List.mem_cons_of_mem _ hr', hp⟩
      | ok cs0 => rw [hrest] at h; exact absurd h (by simp)

theorem compileGroups_ok (s : Settings) (gs : List Group) (cs : List CompiledRoute)
    (h : compileGroups s gs = .ok cs) :
    (∀ c, c ∈ cs ↔ ∃ g ∈ gs, c.inGroup s g) ∧
      ∀ g ∈ gs, ∀ r ∈ g.routes, ∃ c, compileRoute s g.base g.middleware r = .ok c := by
  induction gs generalizing cs with
  | nil =>
    simp only [compileGroups, Except.ok.injEq] at h
    subst h
    simp
  | cons g rest ih =>
    simp only [compileGroups] at h
    cases hg : compileRoutes s g.base g.middleware g.routes with
    | error e => rw [hg] at h; exact absurd h (by simp)
    | ok cs0 =>
      rw [hg] at h
      cases hrest : compileGroups s rest with
      | error e => rw [hrest] at h; exact absurd h (by simp)
      | ok more =>
        rw [hrest] at h
        simp only [Except.ok.injEq] at h
        subst h
        obtain ⟨hg1, hg2⟩ := compileRoutes_ok s g.base g.middleware g.routes cs0 hg
        obtain ⟨ih1, ih2⟩ := ih more hrest
        constructor
        · intro c
          rw [List.mem_append, hg1 c, ih1 c]
          constructor
          · rintro (hc | ⟨g', hg', hc⟩)
            · exact ⟨g, List.mem_cons_self _ _, hc⟩
            · exact ⟨g', List.mem_cons_of_mem _ hg', hc⟩
          · rintro ⟨g', hg', hc⟩
            rcases List.mem_cons.mp hg' with heq | hmem
            · rw [heq] at hc
              exact Or.inl hc
            · exact Or.inr ⟨g', hmem, hc⟩
        · intro g' hg' r hr
          rcases List.mem_cons.mp hg' with heq | hmem
          · rw [heq] at hr ⊢
            exact hg2 r hr
          · exact ih2 g' hmem r hr

theorem compileGroups_error (s : Settings) (gs : List Group) (e : GoString)
    (h : compileGroups s gs = .error e) :
    ∃ g ∈ gs, ∃ r ∈ g.routes, parseMethods s.knownVerbs r.methods = .error e := by
  induction gs with
  | nil => simp [compileGroups] at h
  | cons g rest ih =>
    simp only [compileGroups] at h
    cases hg : compileRoutes s g.base g.middleware g.routes with
    | error e' =>
      rw [hg] at h
      simp only [Except.error.injEq] at h
      subst h
      obtain ⟨r, hr, hp⟩ := compileRoutes_error s g.base g.middleware g.routes e' hg
      exact ⟨g, List.mem_cons_self _ _, r, hr, hp⟩
    | ok cs0 =>
      rw [hg] at h
      cases hrest : compileGroups s rest with
      | error e' =>
        rw [hrest] at h
        simp only [Except.error.injEq] at h
        subst h
        obtain ⟨g', hg', r, hr, hp⟩ := ih hrest
        exact ⟨g', List.mem_cons_of_mem _ hg', r, hr, hp⟩
      | ok more => rw [hrest] at h; exact absurd h (by simp)

/-- A startup that succeeds: the server has the registered global-pre and global
middleware, the last registered error handler, and exactly the routes compiled
from the registrations; every registered method string has parsed. -/
theorem build_ok (s : Settings) (regs : Registrations) (server : Server)
    (h : build s regs = .ok server) :
    server.settings = s ∧ server.globalPre = regs.globalPre ∧ server.global = regs.global ∧
      server.errorHandler = regs.errorHandlers.getLast? ∧
      (∀ c, c ∈ server.routes ↔ c.standalone s regs ∨ ∃ g ∈ regs.groups, c.inGroup s g) ∧
      ∀ r, (r ∈ regs.routes ∨ ∃ g ∈ regs.groups, r ∈ g.routes) →
        ∃ verbs, parseMethods s.knownVerbs r.methods = .ok verbs := by
  unfold build at h
  cases hr : compileRoutes s [] [] regs.routes with
  | error e => rw [hr] at h; exact absurd h (by simp)
  | ok standalone =>
    rw [hr] at h
    cases hg : compileGroups s regs.groups with
    | error e => rw [hg] at h; exact absurd h (by simp)
    | ok grouped =>
      rw [hg] at h
      simp only [Except.ok.injEq] at h
      subst h
      obtain ⟨hr1, hr2⟩ := compileRoutes_ok s [] [] regs.routes standalone hr
      obtain ⟨hg1, hg2⟩ := compileGroups_ok s regs.groups grouped hg
      refine ⟨rfl, rfl, rfl, rfl, ?_, ?_⟩
      · intro c
        show c ∈ standalone ++ grouped ↔ _
        rw [List.mem_append, hr1 c, hg1 c]
        rfl
      · rintro r (hmem | ⟨g, hgm, hmem⟩)
        · obtain ⟨c, hc⟩ := hr2 r hmem
          exact ⟨c.verbs, (compileRoute_ok_fields s [] [] r c hc).1⟩
        · obtain ⟨c, hc⟩ := hg2 g hgm r hmem
          exact ⟨c.verbs, (compileRoute_ok_fields s g.base g.middleware r c hc).1⟩

/-- A startup that fails: the error is the startup text followed by the parsing
error of a registered route, standalone or of a group. -/
theorem build_error (s : Settings) (regs : Registrations) (e : GoString)
    (h : build s regs = .error e) :
    ∃ r e', (r ∈ regs.routes ∨ ∃ g ∈ regs.groups, r ∈ g.routes) ∧
      parseMethods s.knownVerbs r.methods = .error e' ∧ e = startupFailure ++ e' := by
  unfold build at h
  cases hr : compileRoutes s [] [] regs.routes with
  | error e' =>
    rw [hr] at h
    simp only [Except.error.injEq] at h
    obtain ⟨r, hmem, hp⟩ := compileRoutes_error s [] [] regs.routes e' hr
    exact ⟨r, e', Or.inl hmem, hp, h.symm⟩
  | ok standalone =>
    rw [hr] at h
    cases hg : compileGroups s regs.groups with
    | error e' =>
      rw [hg] at h
      simp only [Except.error.injEq] at h
      obtain ⟨g, hgm, r, hmem, hp⟩ := compileGroups_error s regs.groups e' hg
      exact ⟨r, e', Or.inr ⟨g, hgm, hmem⟩, hp, h.symm⟩
    | ok grouped => rw [hg] at h; exact absurd h (by simp)

/-! ## Claim on method strings -/

/-- C16: for every route registration, standalone or inside a group: the method
string "*" parses to the known verbs; a comma-separated list whose tokens are all
known verbs parses to these verbs in canonical (upper case) form; a list with a
token that is no known verb fails with the error `invalid HTTP method "<TOKEN>"`
naming such a token in upper case; and when the method string of any registered
route fails to parse, startup fails with the error of such a route: the failure
is not dropped. -/
theorem methods_parsing (s : Settings) :
    parseMethods s.knownVerbs (str "*") = .ok s.knownVerbs ∧
    (∀ methods, methods ≠ str "*" → (∀ t ∈ splitOn 44 methods, toUpper t ∈ s.knownVerbs) →
      parseMethods s.knownVerbs methods = .ok ((splitOn 44 methods).map toUpper)) ∧
    (∀ methods, methods ≠ str "*" → (∃ t ∈ splitOn 44 methods, toUpper t ∉ s.knownVerbs) →
      ∃ t ∈ splitOn 44 methods, toUpper t ∉ s.knownVerbs ∧
        parseMethods s.knownVerbs methods = .error (invalidMethod (toUpper t))) ∧
    (∀ (regs : Registrations) (r : Route) (e : GoString),
      (r ∈ regs.routes ∨ ∃ g ∈ regs.groups, r ∈ g.routes) →
      parseMethods s.knownVerbs r.methods = .error e →
      ∃ r' e', (r' ∈ regs.routes ∨ ∃ g ∈ regs.groups, r' ∈ g.routes) ∧
        parseMethods s.knownVerbs r'.methods = .error e' ∧
        build s regs = .error (startupFailure ++ e')) := by
  refine ⟨parseMethods_star _, ?_, ?_, ?_⟩
  · intro methods hm hall
    rw [parseMethods_list _ _ hm, checkTokens_ok _ _ hall]
  · intro methods hm hbad
    obtain ⟨pre, t, post, hsplit, _, ht, herr⟩ := checkTokens_error _ _ hbad
    refine ⟨t, ?_, ht, ?_⟩
    · rw [hsplit]
      exact List.mem_append_right _ (List.mem_cons_self _ _)
    · rw [parseMethods_list _ _ hm, herr]
  · intro regs r e hr hp
    cases hb : build s regs with
    | ok server =>
      obtain ⟨verbs, hv⟩ := (build_ok s regs server hb).2.2.2.2.2 r hr
      rw [hp] at hv
      exact absurd hv (by simp)
    | error e0 =>
      obtain ⟨r', e', hr', hp', he⟩ := build_error s regs e0 hb
      exact ⟨r', e', hr', hp', by rw [he]⟩

set_option maxRecDepth 4000 in
theorem methods_parsing_witness :
    ∃ t ∈ splitOn 44 (str "invalid"), toUpper t ∉ (testSettings true [] []).knownVerbs ∧
      parseMethods (testSettings true [] []).knownVerbs (str "invalid") =
        .error (invalidMethod (toUpper t)) :=
  (methods_parsing (testSettings true [] [])).2.2.1 (str "invalid") (by decide)
    ⟨str "invalid", by decide, by decide⟩

set_option maxRecDepth 4000 in
/-- The startup errors `TestModuleWithInvalidHandlerMethods` and
`TestModuleWithInvalidHandlersGroupMethods` read. -/
theorem build_invalid_methods :
    build (testSettings true [] []) invalidRegistrations =
        .error (str "failed to register http server resources: invalid HTTP method \"INVALID\"") ∧
      build (testSettings true [] []) invalidGroupRegistrations =
        .error (str "failed to register http server resources: invalid HTTP method \"INVALID\"") :=
  ⟨rfl, rfl⟩

/-! ## The stages of a request -/

theorem runClass_steps (cls : SlotClass) (ms : List Middleware) (st : GoString × List Step) :
    (runClass cls ms st).2 = st.2 ++ ms.map (fun m => Step.middleware cls m.name) := by
  unfold runClass
  induction ms generalizing st with
  | nil => simp
  | cons m rest ih =>
    rw [List.foldl_cons, ih]
    simp

theorem Server.globalStage_steps (s : Server) (req : Request) :
    (s.globalStage req).2 =
      s.globalPre.map (fun m => Step.middleware SlotClass.globalPre m.name) ++
        [Step.enrichment] ++ s.global.map (fun m => Step.middleware SlotClass.global m.name) := by
  unfold Server.globalStage
  rw [runClass_steps, runClass_steps]
  rfl

theorem Server.routeStage_steps (s : Server) (req : Request) (c : CompiledRoute) :
    (s.routeStage req c).2 ++ [Step.handler c.handler.name] =
      classOrder s.globalPre s.global c.group c.route c.handler := by
  unfold Server.routeStage classOrder
  rw [runClass_steps, runClass_steps, s.globalStage_steps]

theorem mem_classOrder_group (globalPre global group route : List Middleware) (h : Handler)
    (name : GoString) :
    Step.middleware SlotClass.group name ∈ classOrder globalPre global group route h ↔
      ∃ m ∈ group, m.name = name := by
  simp [classOrder]

theorem mem_classOrder_route (globalPre global group route : List Middleware) (h : Handler)
    (name : GoString) :
    Step.middleware SlotClass.route name ∈ classOrder globalPre global group route h ↔
      ∃ m ∈ route, m.name = name := by
  simp [classOrder]

/-! ## Routing and serving -/

theorem Server.dispatch_found (s : Server) (method path : GoString) (c : CompiledRoute)
    (h : s.dispatch method path = .found c) :
    c ∈ s.routes ∧ s.settings.matchesPattern c.pattern path = true ∧ method ∈ c.verbs := by
  unfold Server.dispatch at h
  cases hf : s.routes.filter (fun c => s.settings.matchesPattern c.pattern path) with
  | nil => rw [hf] at h; exact absurd h (by simp)
  | cons c0 cs =>
    rw [hf] at h
    simp only at h
    cases hfind : (c0 :: cs).find? (fun c => decide (method ∈ c.verbs)) with
    | none => rw [hfind] at h; exact absurd h (by simp)
    | some route =>
      rw [hfind] at h
      simp only [Dispatch.found.injEq] at h
      subst h
      have hmem : route ∈ c0 :: cs := List.mem_of_find?_eq_some hfind
      rw [← hf, List.mem_filter] at hmem
      have hverb := List.find?_some hfind
      exact ⟨hmem.1, hmem.2, of_decide_eq_true hverb⟩

theorem Server.dispatch_notFound (s : Server) (method path : GoString)
    (h : ∀ c ∈ s.routes, s.settings.matchesPattern c.pattern path = false) :
    s.dispatch method path = .notFound := by
  unfold Server.dispatch
  have hf : s.routes.filter (fun c => s.settings.matchesPattern c.pattern path) = [] := by
    rw [List.filter_eq_nil_iff]
    intro c hc
    rw [h c hc]
    simp
  rw [hf]

theorem Server.serve_found (s : Server) (req : Request) (c : CompiledRoute)
    (h : s.dispatch req.method (s.routedPath req) = .found c) :
    s.serve req = s.finish req.method (s.routedPath req) (some c.pattern)
      ((s.routeStage req c).2 ++ [Step.handler c.handler.name])
      (c.handler.run { method := req.method, path := (s.routeStage req c).1 }) := by
  unfold Server.serve
  rw [h]

theorem Server.serve_notFound (s : Server) (req : Request)
    (h : s.dispatch req.method (s.routedPath req) = .notFound) :
    s.serve req = s.finish req.method (s.routedPath req) none (s.globalStage req).2
      (Outcome.failed notFoundError) := by
  unfold Server.serve
  rw [h]

theorem Server.serve_steps_found (s : Server) (req : Request) (c : CompiledRoute)
    (h : s.dispatch req.method (s.routedPath req) = .found c) :
    (s.serve req).steps = classOrder s.globalPre s.global c.group c.route c.handler := by
  rw [s.serve_found req c h, ← s.routeStage_steps req c]
  rfl

/-! ## Claims on the middleware chain -/

/-- C14: for every registered route, the stages of its chain are, in this order:
the global-pre middleware, the request-context enrichment, the global
middleware, the middleware of its group (none for a route outside any group),
its route-level middleware, its handler, each class in registration order; a
request dispatched to the route runs exactly these stages; and a class without
middleware contributes no stage (with all four classes empty the chain is the
enrichment and the handler). -/
theorem chain_order (st : Settings) (regs : Registrations) (s : Server)
    (hb : build st regs = .ok s) (c : CompiledRoute) (hc : c ∈ s.routes) (req : Request) :
    (s.routeStage req c).2 ++ [Step.handler c.handler.name] =
        classOrder regs.globalPre regs.global c.group c.route c.handler ∧
      (s.dispatch req.method (s.routedPath req) = .found c →
        (s.serve req).steps = classOrder regs.globalPre regs.global c.group c.route c.handler) ∧
      ((∃ r ∈ regs.routes, c.group = [] ∧ c.route = r.middleware ∧ c.handler = r.handler) ∨
        ∃ g ∈ regs.groups, ∃ r ∈ g.routes,
          c.group = g.middleware ∧ c.route = r.middleware ∧ c.handler = r.handler) ∧
      classOrder [] [] [] [] c.handler = [Step.enrichment, Step.handler c.handler.name] := by
  obtain ⟨_, hpre, hglobal, _, hroutes, _⟩ := build_ok st regs s hb
  refine ⟨?_, ?_, ?_, rfl⟩
  · rw [s.routeStage_steps req c, hpre, hglobal]
  · intro hd
    rw [s.serve_steps_found req c hd, hpre, hglobal]
  · rcases (hroutes c).mp hc with ⟨r, hr, hcr⟩ | ⟨g, hg, r, hr, hcr⟩
    · obtain ⟨_, _, h3, h4, h5⟩ := compileRoute_ok_fields st [] [] r c hcr
      exact Or.inl ⟨r, hr, h3, h4, h5⟩
    · obtain ⟨_, _, h3, h4, h5⟩ := compileRoute_ok_fields st g.base g.middleware r c hcr
      exact Or.inr ⟨g, hg, r, hr, h3, h4, h5⟩

theorem chain_order_witness :
    build (testSettings false [] []) autowiredRegistrations = .ok autowiredServer ∧
      fooBarRoute ∈ autowiredServer.routes ∧
      (autowiredServer.serve ⟨str "GET", str "/foo/bar"⟩).steps =
        [Step.enrichment, Step.middleware SlotClass.global (str "global"),
          Step.middleware SlotClass.group (str "group"),
          Step.middleware SlotClass.route (str "handler"), Step.handler (str "bar")] :=
  ⟨rfl, List.Mem.tail _ (List.Mem.tail _ (List.Mem.head _)),
    (chain_order (testSettings false [] []) autowiredRegistrations autowiredServer rfl
      fooBarRoute (List.Mem.tail _ (List.Mem.tail _ (List.Mem.head _)))
      ⟨str "GET", str "/foo/bar"⟩).2.1 rfl⟩

/-- C15: for every group with its group middleware: a request dispatched to a
route registered inside the group runs every middleware of the group, and runs
no group-class middleware but those of that group; a request dispatched to a
route registered outside any group runs no group-class middleware at all,
whatever its path and handler; and every route a request is dispatched to is
registered either outside any group or inside a registered group. -/
theorem group_middleware_scope (st : Settings) (regs : Registrations) (s : Server)
    (hb : build st regs = .ok s) (req : Request) (c : CompiledRoute)
    (hd : s.dispatch req.method (s.routedPath req) = .found c) :
    (∀ g : Group, c.inGroup st g → ∀ m ∈ g.middleware,
        Step.middleware SlotClass.group m.name ∈ (s.serve req).steps) ∧
      (∀ g : Group, c.inGroup st g → ∀ name,
        Step.middleware SlotClass.group name ∈ (s.serve req).steps →
          ∃ m ∈ g.middleware, m.name = name) ∧
      (c.standalone st regs → ∀ name,
        Step.middleware SlotClass.group name ∉ (s.serve req).steps) ∧
      (c.standalone st regs ∨ ∃ g ∈ regs.groups, c.inGroup st g) := by
  have hsteps := s.serve_steps_found req c hd
  refine ⟨?_, ?_, ?_,
    ((build_ok st regs s hb).2.2.2.2.1 c).mp (s.dispatch_found _ _ c hd).1⟩
  · rintro g ⟨r, _, hcr⟩ m hm
    rw [hsteps, mem_classOrder_group, (compileRoute_ok_fields st g.base g.middleware r c hcr).2.2.1]
    exact ⟨m, hm, rfl⟩
  · rintro g ⟨r, _, hcr⟩ name hname
    rw [hsteps, mem_classOrder_group,
      (compileRoute_ok_fields st g.base g.middleware r c hcr).2.2.1] at hname
    exact hname
  · rintro ⟨r, _, hcr⟩ name hname
    rw [hsteps, mem_classOrder_group, (compileRoute_ok_fields st [] [] r c hcr).2.2.1] at hname
    obtain ⟨m, hm, _⟩ := hname
    exact absurd hm (List.not_mem_nil m)

theorem group_middleware_scope_witness :
    build (testSettings false [] []) autowiredRegistrations = .ok autowiredServer ∧
      Step.middleware SlotClass.group (str "group") ∈
        (autowiredServer.serve ⟨str "GET", str "/foo/bar"⟩).steps ∧
      Step.middleware SlotClass.group (str "group") ∉
        (autowiredServer.serve ⟨str "GET", str "/bar"⟩).steps :=
  ⟨rfl,
    (group_middleware_scope (testSettings false [] []) autowiredRegistrations autowiredServer
      rfl ⟨str "GET", str "/foo/bar"⟩ fooBarRoute rfl).1
      { base := str "/foo", middleware := [plainMiddleware (str "group")],
        routes := [
          { methods := str "GET", path := str "/bar", handler := barHandler,
            middleware := [plainMiddleware (str "handler")] },
          { methods := str "GET,POST", path := str "/baz", handler := bazHandler,
            middleware := [plainMiddleware (str "handler")] }] }
      ⟨_, List.Mem.head _, rfl⟩ (plainMiddleware (str "group")) (List.Mem.head _),
    by decide⟩

/-! ## Completion of a request -/

theorem recoveryLogs_filter_access (o : Outcome) :
    (recoveryLogs o).filter LogRecord.isAccess = [] := by
  cases o <;> rfl

theorem Server.finish_access_logs (s : Server) (method path : GoString)
    (pattern : Option GoString) (steps : List Step) (o : Outcome) :
    (s.finish method path pattern steps o).logs.filter LogRecord.isAccess =
      [LogRecord.access (levelOf (s.finish method path pattern steps o).response.status) method
        path (s.finish method path pattern steps o).response.status (s.errorOf o)] := by
  unfold Server.finish
  simp only [List.filter_append, recoveryLogs_filter_access, List.nil_append]
  rfl

/-- Every request is completed by `finish`, with the pattern of the route it was
dispatched to, or with no pattern when it was dispatched to none. -/
theorem Server.serve_eq_finish (s : Server) (req : Request) :
    ∃ pattern steps o,
      s.serve req = s.finish req.method (s.routedPath req) pattern steps o ∧
      (∀ c, s.dispatch req.method (s.routedPath req) = .found c → pattern = some c.pattern) ∧
      ((∀ c, s.dispatch req.method (s.routedPath req) ≠ .found c) → pattern = none) := by
  cases hd : s.dispatch req.method (s.routedPath req) with
  | found c =>
    refine ⟨some c.pattern, _, _, s.serve_found req c hd, ?_, ?_⟩
    · intro c' hc'
      rw [Dispatch.found.inj hc']
    · intro hno
      exact absurd rfl (hno c)
  | methodNotAllowed =>
    refine ⟨none, (s.globalStage req).2, Outcome.failed methodNotAllowedError, ?_, ?_, ?_⟩
    · unfold Server.serve
      rw [hd]
    · intro c hc
      exact absurd hc (by simp)
    · intro _
      rfl
  | notFound =>
    refine ⟨none, _, _, s.serve_notFound req hd, ?_, ?_⟩
    · intro c hc
      exact absurd hc (by simp)
    · intro _
      rfl

theorem levelOf_classes (status : Nat) :
    (200 ≤ status → status < 400 → levelOf status = LogLevel.info) ∧
      (400 ≤ status → status < 500 → levelOf status = LogLevel.warn) ∧
      (500 ≤ status → status < 600 → levelOf status = LogLevel.error) := by
  unfold levelOf
  refine ⟨fun _ h => ?_, fun h1 h2 => ?_, fun h _ => ?_⟩
  · rw [if_neg (by omega), if_neg (by omega)]
  · rw [if_neg (by omega), if_pos h1]
  · rw [if_pos h]

/-- The router sees the path the global-pre middleware leave: in the server of
`TestModuleWithEchoResources` the request GET "/abstract" is rewritten to
"/concrete" and served by `concreteHandler`, as the test reads. -/
theorem echoServer_rewrite :
    echoServer.routedPath ⟨str "GET", str "/abstract"⟩ = str "/concrete" ∧
      (echoServer.serve ⟨str "GET", str "/abstract"⟩).response =
        { status := 200, body := Body.text (str "\"concrete\"\n") } :=
  ⟨by decide, by decide⟩

/-! ## Claims on panics and unmatched requests -/

/-- C17 (amended): for every request dispatched to a route whose handler panics
with a message `m`: the panic is caught (the request is served), the error-level
record "[PANIC RECOVER] m" is logged, and the request is counted once, for the
pattern of the route, under the status class of the response; and when no custom
error handler is registered, the response status is 500, the status class is
"5xx", and in debug mode the body has `m` and the stack trace. -/
theorem panic_recovery (s : Server) (req : Request) (c : CompiledRoute) (m : GoString)
    (hd : s.dispatch req.method (s.routedPath req) = .found c)
    (hp : c.handler.run { method := req.method, path := (s.routeStage req c).1 } =
      Outcome.panicked m) :
    LogRecord.message LogLevel.error (str "[PANIC RECOVER] " ++ m) ∈ (s.serve req).logs ∧
      (s.serve req).samples =
        [{ name := counterName s.settings, method := req.method, path := some c.pattern,
           status := statusClass (s.serve req).response.status }] ∧
      (s.errorHandler = none → PanicContract s req c m) := by
  have hserve := s.serve_found req c hd
  rw [hp] at hserve
  have hlog : LogRecord.message LogLevel.error (str "[PANIC RECOVER] " ++ m) ∈
      (s.serve req).logs := by
    rw [hserve]
    exact List.mem_append_left _ (List.mem_singleton.mpr rfl)
  refine ⟨hlog, ?_, ?_⟩
  · rw [hserve]
    rfl
  · intro hdefault
    unfold PanicContract
    have hresp : s.respondTo (Outcome.panicked m) =
        { status := 500
          body := if s.settings.debug then
            Body.errorDetail m
              (if s.settings.debug then some (s.settings.captureStack m) else none)
            else Body.generic } := by
      simp only [Server.respondTo, Server.handleError, hdefault, defaultErrorHandler, recovered,
        Option.getD_none]
    refine ⟨?_, hlog, ?_, ?_⟩
    · rw [hserve]
      show (s.respondTo (Outcome.panicked m)).status = 500
      rw [hresp]
    · rw [hserve]
      show [({ name := counterName s.settings, method := req.method, path := some c.pattern,
               status := statusClass (s.respondTo (Outcome.panicked m)).status } :
                 MetricSample)] = _
      have h5 : statusClass 500 = str "5xx" := by decide
      rw [hresp, h5]
    · intro hdebug
      rw [hserve]
      show (s.respondTo (Outcome.panicked m)).body = _
      rw [hresp, hdebug]
      rfl

theorem panic_recovery_witness :
    panicServer.dispatch (str "GET") (panicServer.routedPath ⟨str "GET", str "/panic"⟩) =
        .found panicRoute ∧
      panicServer.errorHandler = none ∧
      LogRecord.message LogLevel.error (str "[PANIC RECOVER] test panic") ∈
        (panicServer.serve ⟨str "GET", str "/panic"⟩).logs ∧
      PanicContract panicServer ⟨str "GET", str "/panic"⟩ panicRoute (str "test panic") :=
  ⟨rfl, rfl,
    (panic_recovery panicServer ⟨str "GET", str "/panic"⟩ panicRoute (str "test panic")
      rfl rfl).1,
    (panic_recovery panicServer ⟨str "GET", str "/panic"⟩ panicRoute (str "test panic")
      rfl rfl).2.2 rfl⟩

/-- C17 as stated fails: with the error handler `textErrorHandler 400` registered
and debug mode on, the request to the panic route is answered by that handler.
The status is 400 and not 500, the request is counted under "4xx" and not under
"5xx", and the body is the text of the handler, without a stack trace.  The
record "[PANIC RECOVER] test panic" is logged all the same, and the count is for
the pattern "/panic". -/
theorem panic_recovery_custom_handler :
    (customErrorServer 400).dispatch (str "GET")
        ((customErrorServer 400).routedPath ⟨str "GET", str "/panic"⟩) = .found panicRoute ∧
      panicRoute.handler.run ⟨str "GET", str "/panic"⟩ = Outcome.panicked (str "test panic") ∧
      (customErrorServer 400).settings.debug = true ∧
      ((customErrorServer 400).serve ⟨str "GET", str "/panic"⟩).response =
        { status := 400, body := Body.text (str "handled: test panic") } ∧
      ((customErrorServer 400).serve ⟨str "GET", str "/panic"⟩).samples =
        [{ name := str "http_server_requests_total", method := str "GET",
           path := some (str "/panic"), status := str "4xx" }] ∧
      LogRecord.message LogLevel.error (str "[PANIC RECOVER] test panic") ∈
        ((customErrorServer 400).serve ⟨str "GET", str "/panic"⟩).logs ∧
      ¬ PanicContract (customErrorServer 400) ⟨str "GET", str "/panic"⟩ panicRoute
          (str "test panic") := by
  refine ⟨rfl, rfl, rfl, by decide, by decide, by decide, ?_⟩
  intro h
  exact absurd h.1 (by decide)

/-- C18 (amended): for every request whose path matches no registered route:
exactly one access-log record is produced for it, with the error field and at
the level of the response status, the span is named "<METHOD> <path>", and no
group or route-level middleware runs; and when no custom error handler is
registered, the response status is 404 and the level of the record is "warn".
The path is the one the router sees (§4.2). -/
theorem not_found (s : Server) (req : Request)
    (hno : ∀ c ∈ s.routes, s.settings.matchesPattern c.pattern (s.routedPath req) = false) :
    (∃ err, (s.serve req).logs.filter LogRecord.isAccess =
        [LogRecord.access (levelOf (s.serve req).response.status) req.method
          (s.routedPath req) (s.serve req).response.status (some err)]) ∧
      (∃ span, (s.serve req).spans = [span] ∧
        span.name = req.method ++ str " " ++ s.routedPath req) ∧
      (∀ name, Step.middleware SlotClass.group name ∉ (s.serve req).steps ∧
        Step.middleware SlotClass.route name ∉ (s.serve req).steps) ∧
      (s.errorHandler = none → NotFoundContract s req (s.routedPath req)) := by
  have hserve := s.serve_notFound req (s.dispatch_notFound req.method _ hno)
  have hlogs : (s.serve req).logs.filter LogRecord.isAccess =
      [LogRecord.access (levelOf (s.serve req).response.status) req.method
        (s.routedPath req) (s.serve req).response.status (some notFoundError)] := by
    have h := s.finish_access_logs req.method (s.routedPath req) none (s.globalStage req).2
      (Outcome.failed notFoundError)
    rw [← hserve] at h
    exact h
  have hspan : ∃ span, (s.serve req).spans = [span] ∧
      span.name = req.method ++ str " " ++ s.routedPath req := by
    rw [hserve]
    exact ⟨_, rfl, rfl⟩
  have hsteps : ∀ name, Step.middleware SlotClass.group name ∉ (s.serve req).steps ∧
      Step.middleware SlotClass.route name ∉ (s.serve req).steps := by
    intro name
    rw [hserve]
    show Step.middleware SlotClass.group name ∉ (s.globalStage req).2 ∧
      Step.middleware SlotClass.route name ∉ (s.globalStage req).2
    rw [s.globalStage_steps]
    simp
  refine ⟨⟨notFoundError, hlogs⟩, hspan, hsteps, ?_⟩
  intro hdefault
  unfold NotFoundContract
  have hresp : s.respondTo (Outcome.failed notFoundError) =
      { status := 404, body := if s.settings.debug then
          Body.errorDetail (str "Not Found") none else Body.generic } := by
    simp only [Server.respondTo, Server.handleError, hdefault, defaultErrorHandler,
      notFoundError, Option.getD_some]
  have hstatus : (s.serve req).response.status = 404 := by
    rw [hserve]
    simp only [Server.finish, hresp]
  refine ⟨hstatus, ⟨s.routedPath req, 404, notFoundError, ?_⟩, hspan, hsteps⟩
  rw [hlogs, hstatus]
  rfl

theorem not_found_witness :
    (∀ c ∈ autowiredServer.routes,
        autowiredServer.settings.matchesPattern c.pattern
          (autowiredServer.routedPath ⟨str "GET", str "/invalid"⟩) = false) ∧
      autowiredServer.errorHandler = none ∧
      NotFoundContract autowiredServer ⟨str "GET", str "/invalid"⟩
        (autowiredServer.routedPath ⟨str "GET", str "/invalid"⟩) :=
  ⟨by decide, rfl,
    (not_found autowiredServer ⟨str "GET", str "/invalid"⟩ (by decide)).2.2.2 rfl⟩

/-- C18 as stated fails: with the error handler `textErrorHandler 500` registered,
the request GET "/invalid", whose path matches no route, is answered by that
handler.  The status is 500 and not 404, and the access-log record is at level
"error" and not "warn".  The record is the only one and has the error field, the
span is named "GET /invalid", and no group or route-level middleware runs. -/
theorem not_found_custom_handler :
    (∀ c ∈ (customErrorServer 500).routes,
        (customErrorServer 500).settings.matchesPattern c.pattern
          ((customErrorServer 500).routedPath ⟨str "GET", str "/invalid"⟩) = false) ∧
      (customErrorServer 500).routedPath ⟨str "GET", str "/invalid"⟩ = str "/invalid" ∧
      ((customErrorServer 500).serve ⟨str "GET", str "/invalid"⟩).response.status = 500 ∧
      ((customErrorServer 500).serve ⟨str "GET", str "/invalid"⟩).logs.filter
          LogRecord.isAccess =
        [LogRecord.access LogLevel.error (str "GET") (str "/invalid") 500
          (some notFoundError)] ∧
      ((customErrorServer 500).serve ⟨str "GET", str "/invalid"⟩).spans.map Span.name =
        [str "GET /invalid"] ∧
      ¬ NotFoundContract (customErrorServer 500) ⟨str "GET", str "/invalid"⟩
          (str "/invalid") := by
  refine ⟨by decide, rfl, by decide, by decide, by decide, ?_⟩
  intro h
  exact absurd h.1 (by decide)

/-! ## Claims on the access log and the request counter -/

/-- C19: for every request, exactly one access-log record is produced, and its
level is the level of the response status alone: "info" for every 2xx and 3xx
status, "warn" for every 4xx status, "error" for every 5xx status. -/
theorem access_log_level (s : Server) (req : Request) :
    (∃ method uri err, (s.serve req).logs.filter LogRecord.isAccess =
      [LogRecord.access (levelOf (s.serve req).response.status) method uri
        (s.serve req).response.status err]) ∧
    ∀ status : Nat,
      (200 ≤ status → status < 400 → levelOf status = LogLevel.info) ∧
      (400 ≤ status → status < 500 → levelOf status = LogLevel.warn) ∧
      (500 ≤ status → status < 600 → levelOf status = LogLevel.error) := by
  refine ⟨?_, levelOf_classes⟩
  obtain ⟨pattern, steps, o, hserve, _, _⟩ := s.serve_eq_finish req
  rw [hserve]
  exact ⟨_, _, _, s.finish_access_logs _ _ _ _ _⟩

theorem access_log_level_witness :
    (autowiredServer.serve ⟨str "GET", str "/bar"⟩).logs.filter LogRecord.isAccess =
        [LogRecord.access LogLevel.info (str "GET") (str "/bar") 200 none] ∧
      (autowiredServer.serve ⟨str "GET", str "/invalid"⟩).logs.filter LogRecord.isAccess =
        [LogRecord.access LogLevel.warn (str "GET") (str "/invalid") 404 (some notFoundError)] ∧
      levelOf 500 = LogLevel.error :=
  ⟨by decide, by decide,
    ((access_log_level autowiredServer ⟨str "GET", str "/bar"⟩).2 500).2.2 (by decide)
      (by decide)⟩

/-- C20: for every request, the request counter is incremented exactly once,
with the method of the request, the pattern of the route the request was
dispatched to (the not-found bucket when it was dispatched to none; never the
raw URI as such), and the status class of the response status ("2xx" for 200,
"5xx" for 500); the name of the counter is "http_server_requests_total", after
"<namespace>_<subsystem>_" when both are configured. -/
theorem request_counter (s : Server) (req : Request) :
    (∃ path, (s.serve req).samples =
        [{ name := counterName s.settings, method := req.method, path := path,
           status := statusClass (s.serve req).response.status }] ∧
      (∀ c, s.dispatch req.method (s.routedPath req) = .found c → path = some c.pattern) ∧
      ((∀ c, s.dispatch req.method (s.routedPath req) ≠ .found c) → path = none)) ∧
    statusClass 200 = str "2xx" ∧ statusClass 500 = str "5xx" ∧
    (s.settings.metricsNamespace = [] → s.settings.metricsSubsystem = [] →
      counterName s.settings = str "http_server_requests_total") ∧
    (s.settings.metricsNamespace ≠ [] → s.settings.metricsSubsystem ≠ [] →
      counterName s.settings =
        s.settings.metricsNamespace ++ str "_" ++ s.settings.metricsSubsystem ++ str "_" ++
          str "http_server_requests_total") := by
  refine ⟨?_, by decide, by decide, ?_, ?_⟩
  · obtain ⟨pattern, steps, o, hserve, hfound, hnone⟩ := s.serve_eq_finish req
    refine ⟨pattern, ?_, hfound, hnone⟩
    rw [hserve]
    rfl
  · intro hns hsub
    unfold counterName
    rw [if_pos hns, if_pos hsub]
    rfl
  · intro hns hsub
    unfold counterName
    rw [if_neg hns, if_neg hsub]
    simp only [List.append_assoc]

theorem request_counter_witness :
    (metricsServer.serve ⟨str "GET", str "/bar"⟩).samples =
        [{ name := str "foo_bar_http_server_requests_total", method := str "GET",
           path := some (str "/bar"), status := str "2xx" }] ∧
      statusClass 500 = str "5xx" :=
  ⟨by decide, (request_counter metricsServer ⟨str "GET", str "/bar"⟩).2.2.1⟩

end Fxhttpserver

namespace Fxcore

/-! ## The items of a result of `ListItems` -/

theorem TaskRegistry.mem_standaloneItems (r : TaskRegistry) (names : List GoString)
    (i : TaskListItem) :
    i ∈ r.standaloneItems names ↔ ∃ n ∈ names, r.groupOf n = none ∧ i = standaloneItem n := by
  unfold TaskRegistry.standaloneItems
  rw [List.mem_map]
  constructor
  · rintro ⟨n, hn, hi⟩
    rw [List.mem_filter, decide_eq_true_eq] at hn
    exact ⟨n, hn.1, hn.2, hi.symm⟩
  · rintro ⟨n, hn, hg, hi⟩
    exact ⟨n, List.mem_filter.mpr ⟨hn, by simp [hg]⟩, hi.symm⟩

/-- Every item of a result is the standalone item of a registered name outside
any group, or the group item of a label with its registered members. -/
theorem TaskRegistry.item_cases {r : TaskRegistry} {out : List TaskListItem}
    (h : r.ListItemsResult out) (i : TaskListItem) :
    i ∈ out ↔ (∃ n ∈ r.Names, r.groupOf n = none ∧ i = standaloneItem n) ∨
      ∃ g, r.groupMembers r.Names g ≠ [] ∧
        i = { Name := g, IsGroup := true, Tasks := r.groupMembers r.Names g } := by
  rw [TaskRegistry.mem_of_ListItemsResult h, r.mem_standaloneItems]
  constructor
  · rintro (hs | ⟨e, he, hei⟩)
    · exact Or.inl hs
    · have hmem : (e.1, e.2) ∈ r.listCollect.1.entries := he
      obtain ⟨htasks, hne⟩ := (r.mem_listCollect_groups e.1 e.2).mp hmem
      refine Or.inr ⟨e.1, hne, ?_⟩
      rw [← hei, ← htasks]
      rfl
  · rintro (hs | ⟨g, hne, hi⟩)
    · exact Or.inl hs
    · refine Or.inr ⟨(g, r.groupMembers r.Names g), ?_, ?_⟩
      · exact (r.mem_listCollect_groups g _).mpr ⟨rfl, hne⟩
      · rw [hi]
        rfl

theorem TaskRegistry.groupOf_of_mem (r : TaskRegistry) (n : GoString) (t : Task)
    (h : (n, t) ∈ r.tasks.entries) : r.groupOf n = t.Group := by
  unfold TaskRegistry.groupOf
  rw [(GoMap.get?_eq_some_iff r.tasks n t).mpr h]
  rfl

theorem TaskRegistry.mem_Names_of_mem (r : TaskRegistry) (n : GoString) (t : Task)
    (h : (n, t) ∈ r.tasks.entries) : n ∈ r.Names :=
  (r.mem_Names n).mpr (List.mem_map.mpr ⟨(n, t), h, rfl⟩)

theorem TaskRegistry.mem_groupMembers_iff (r : TaskRegistry) (g n : GoString) :
    n ∈ r.groupMembers r.Names g ↔ n ∈ r.Names ∧ r.groupOf n = some g := by
  unfold TaskRegistry.groupMembers
  rw [List.mem_filter, decide_eq_true_eq]

/-! ## Determinism of `ListItems` -/

theorem TaskRegistry.standaloneItems_names (r : TaskRegistry) (names : List GoString) :
    (r.standaloneItems names).map TaskListItem.Name =
      names.filter (fun n => decide (r.groupOf n = none)) := by
  unfold TaskRegistry.standaloneItems
  rw [List.map_map]
  exact List.map_id _

theorem groupItem_names (entries : List (GoString × List GoString)) :
    (entries.map groupItem).map TaskListItem.Name = entries.map Prod.fst := by
  rw [List.map_map]
  rfl

/-- Without a clash between a standalone name and a group label, the items handed
to `sort.Slice` have pairwise different names. -/
theorem TaskRegistry.listCollect_names_nodup (r : TaskRegistry) (hclash : r.NoLabelClash) :
    ((r.listCollect.2 ++ r.listCollect.1.entries.map groupItem).map
      TaskListItem.Name).Nodup := by
  rw [List.map_append, r.listCollect_items, r.standaloneItems_names, groupItem_names,
    List.nodup_append]
  refine ⟨r.Names_nodup.filter _, r.listCollect.1.nodupKeys, ?_⟩
  intro n hstandalone hlabel
  rw [List.mem_filter, decide_eq_true_eq] at hstandalone
  obtain ⟨e, he, hen⟩ := List.mem_map.mp hlabel
  have hmem : (e.1, e.2) ∈ r.listCollect.1.entries := he
  obtain ⟨_, hne⟩ := (r.mem_listCollect_groups e.1 e.2).mp hmem
  obtain ⟨m, hm⟩ := List.exists_mem_of_ne_nil _ hne
  obtain ⟨u, hu, hgroup⟩ := (r.mem_groupMembers e.1 m).mp hm
  obtain ⟨t, ht⟩ := (GoMap.mem_keys_iff r.tasks n).mp ((r.mem_Names n).mp hstandalone.1)
  have htmem := (GoMap.get?_eq_some_iff r.tasks n t).mp ht
  have htnone : t.Group = none := by
    rw [← r.groupOf_of_mem n t htmem]
    exact hstandalone.2
  exact hclash (n, t) htmem htnone (m, u) hu (by rw [hgroup, hen])

/-- The first loop of `ListItems` depends on the registry through `Names()` and
the groups of the names only. -/
theorem TaskRegistry.listCollect_congr (r r' : TaskRegistry) (hnames : r'.Names = r.Names)
    (hgroup : ∀ n, r'.groupOf n = r.groupOf n) : r'.listCollect = r.listCollect := by
  have hstep : r'.listStep = r.listStep := by
    funext st n
    unfold TaskRegistry.listStep
    rw [hgroup n]
  unfold TaskRegistry.listCollect
  rw [hnames, hstep]

/-- Two registries that hold the same task under every name have the same
possible results of `ListItems`, whatever the order of their maps. -/
theorem TaskRegistry.listCollect_of_same_tasks (r r' : TaskRegistry)
    (hsame : ∀ k, r'.tasks.get? k = r.tasks.get? k) : r'.listCollect = r.listCollect := by
  refine r.listCollect_congr r' ?_ ?_
  · refine TaskRegistry.Names_eq_of_mem_iff r' r.Names r.Names_strict (fun k => ?_)
    rw [r'.mem_Names, r.mem_Names, GoMap.mem_keys_iff, GoMap.mem_keys_iff, hsame k]
  · intro n
    unfold TaskRegistry.groupOf
    rw [hsame n]

/-- Supplying tasks of pairwise different names in another order registers the
same task under every name. -/
theorem NewTaskRegistry_get?_of_perm (ts ts' : List Task) (hperm : ts'.Perm ts)
    (hnd : (ts.map Task.Name).Nodup) (k : GoString) :
    (NewTaskRegistry ⟨ts'⟩).tasks.get? k = (NewTaskRegistry ⟨ts⟩).tasks.get? k := by
  have hnd' : (ts'.map Task.Name).Nodup := (hperm.map Task.Name).nodup_iff.mpr hnd
  by_cases hk : ∃ t ∈ ts, t.Name = k
  · obtain ⟨t, ht, hname⟩ := hk
    rw [← hname, NewTaskRegistry_get?_of_nodup ts hnd t ht,
      NewTaskRegistry_get?_of_nodup ts' hnd' t (hperm.mem_iff.mpr ht)]
  · have hk' : ¬ ∃ t ∈ ts', t.Name = k := fun ⟨t, ht, hname⟩ =>
      hk ⟨t, hperm.mem_iff.mp ht, hname⟩
    rw [(GoMap.get?_eq_none_iff _ k).mpr (fun h => hk ((NewTaskRegistry_mem_keys ts k).mp h)),
      (GoMap.get?_eq_none_iff _ k).mpr (fun h => hk' ((NewTaskRegistry_mem_keys ts' k).mp h))]

/-- Without a clash between a standalone name and a group label, `ListItems` has
one possible result only. -/
theorem TaskRegistry.ListItemsResult_unique (r : TaskRegistry) (hclash : r.NoLabelClash)
    (out out' : List TaskListItem) (h : r.ListItemsResult out) (h' : r.ListItemsResult out') :
    out' = out :=
  sortSliceResult_unique (r.listCollect_names_nodup hclash)
    ((r.ListItemsResult_iff out').mp h') ((r.ListItemsResult_iff out).mp h)

theorem TaskRegistry.ListItemsResult_of_same_tasks (r r' : TaskRegistry)
    (hsame : ∀ k, r'.tasks.get? k = r.tasks.get? k) (out : List TaskListItem)
    (h : r'.ListItemsResult out) : r.ListItemsResult out := by
  rw [TaskRegistry.ListItemsResult_iff] at h ⊢
  rw [r.listCollect_of_same_tasks r' hsame] at h
  exact h

/-! ## Claims on determinism and distinct names -/

/-- The run of `pdqsort_func` on `clashItemsRotated` (thirteen items, indices 0
to 12), step by step.  `choosePivot_func` takes the median of the indices 3, 6
and 9, the items "d", group "m" and group "p": index 6, with no swap counted.
`partialInsertionSort_func` finds the slice out of order (group "m" after group
"t").  `partition_func` around index 6 leaves the pivot, group "m", at index 4
and the standalone "m", which is not less than the pivot, at index 6 behind it.
The range left of the pivot is in order; `insertionSort_func` on the indices 5
to 12 moves the standalone "m" to index 5, not further. -/
theorem pdqsort_steps_rotated :
    choosePivotFunc itemLess clashItemsRotated 0 13 = (6, 0) ∧
      partialInsertionSortFunc itemLess clashItemsRotated 0 13 = false ∧
      partitionFunc itemLess clashItemsRotated 0 13 6 =
        (clashStandalone ++ [groupItem (str "m", [str "u0"]), groupItem (str "t", [str "u7"]),
            standaloneItem (str "m")] ++ (clashLaterGroups.take 6), 4, false) ∧
      insertionSortFunc itemLess
          (clashStandalone ++ [groupItem (str "m", [str "u0"]), groupItem (str "t", [str "u7"]),
            standaloneItem (str "m")] ++ (clashLaterGroups.take 6)) 0 4 =
        clashStandalone ++ [groupItem (str "m", [str "u0"]), groupItem (str "t", [str "u7"]),
            standaloneItem (str "m")] ++ (clashLaterGroups.take 6) ∧
      insertionSortFunc itemLess
          (clashStandalone ++ [groupItem (str "m", [str "u0"]), groupItem (str "t", [str "u7"]),
            standaloneItem (str "m")] ++ (clashLaterGroups.take 6)) 5 13 =
        clashStandalone ++ [groupItem (str "m", [str "u0"]), standaloneItem (str "m")] ++
          clashLaterGroups :=
  ⟨by decide, by decide, by decide, by decide, by decide⟩

/-- On a slice of at most 12 elements `sort.Slice` is `insertionSort_func` on
the whole slice. -/
theorem Slice_short {α : Type} (less : α → α → Bool) (x : List α) (h : x.length ≤ 12) :
    Slice less x = some (insertionSortFunc less x 0 x.length) := by
  unfold Slice pdqsortFunc
  rw [if_pos (by omega)]

/-- C21 as stated fails on `clashRegistry`, whose standalone task "m" is named as
the group "m" is labelled and whose list has thirteen items, one more than
`sort.Slice` sorts by insertion.  When the second loop of `ListItems` ranges
over `groups` in the order of insertion, the items reach `sort.Slice` in order
and stay so: the standalone "m" comes before the group "m".  When the range
starts at the last entry and wraps around (the same entries, rotated), the
group "m" stands at the middle one of the three pivot positions, is taken as the
pivot, and the standalone "m" is moved behind it: the group "m" comes first.
Both sequences are sorted by name; they differ. -/
theorem ListItems_depends_on_map_order :
    clashRegistry.listCollect.2 = clashStandalone ++ [standaloneItem (str "m")] ∧
      clashGroups.Perm clashRegistry.listCollect.1.entries ∧
      (clashGroups.rotate 7).Perm clashRegistry.listCollect.1.entries ∧
      clashRegistry.ListItemsOver clashGroups =
        some (clashStandalone ++
          [standaloneItem (str "m"), groupItem (str "m", [str "u0"])] ++ clashLaterGroups) ∧
      clashRegistry.ListItemsOver (clashGroups.rotate 7) =
        some (clashStandalone ++
          [groupItem (str "m", [str "u0"]), standaloneItem (str "m")] ++ clashLaterGroups) ∧
      clashStandalone ++
          [standaloneItem (str "m"), groupItem (str "m", [str "u0"])] ++ clashLaterGroups ≠
        clashStandalone ++
          [groupItem (str "m", [str "u0"]), standaloneItem (str "m")] ++ clashLaterGroups ∧
      clashRegistry.ListItemsResult (clashStandalone ++
        [standaloneItem (str "m"), groupItem (str "m", [str "u0"])] ++ clashLaterGroups) ∧
      clashRegistry.ListItemsResult (clashStandalone ++
        [groupItem (str "m", [str "u0"]), standaloneItem (str "m")] ++ clashLaterGroups) :=
  ⟨by decide, by decide, by decide, by decide, by decide, by decide,
    (clashRegistry.ListItemsResult_iff _).mpr ⟨by decide, by decide⟩,
    (clashRegistry.ListItemsResult_iff _).mpr ⟨by decide, by decide⟩⟩

/-- C21 (amended): for every set of registered tasks in which no standalone
task's name equals a group label, `ListItems()` has one possible result: the same
on every call, for every order of the map (every registry holding the same task
under every name), and for every order in which tasks of pairwise different
names are supplied to `NewTaskRegistry`. -/
theorem ListItems_deterministic (r : TaskRegistry) (hclash : r.NoLabelClash) :
    (∀ r' : TaskRegistry, (∀ k, r'.tasks.get? k = r.tasks.get? k) →
      ∀ out out', r.ListItemsResult out → r'.ListItemsResult out' → out' = out) ∧
    (∀ ts ts' : List Task, r = NewTaskRegistry ⟨ts⟩ → ts'.Perm ts → (ts.map Task.Name).Nodup →
      ∀ out out', r.ListItemsResult out → (NewTaskRegistry ⟨ts'⟩).ListItemsResult out' →
        out' = out) := by
  have key : ∀ r' : TaskRegistry, (∀ k, r'.tasks.get? k = r.tasks.get? k) →
      ∀ out out', r.ListItemsResult out → r'.ListItemsResult out' → out' = out := by
    intro r' hsame out out' h h'
    exact r.ListItemsResult_unique hclash out out' h
      (r.ListItemsResult_of_same_tasks r' hsame out' h')
  refine ⟨key, ?_⟩
  intro ts ts' hr hperm hnd out out' h h'
  refine key (NewTaskRegistry ⟨ts'⟩) (fun k => ?_) out out' h h'
  rw [hr]
  exact NewTaskRegistry_get?_of_perm ts ts' hperm hnd k

theorem ListItems_deterministic_witness :
    groupedRegistry.NoLabelClash ∧ groupedRegistry.ListItemsResult groupedItems ∧
      groupedRegistry.ListItems = groupedItems :=
  have hclash : groupedRegistry.NoLabelClash := by
    unfold TaskRegistry.NoLabelClash
    decide
  ⟨hclash, groupedRegistry_result,
    (ListItems_deterministic groupedRegistry hclash).1 groupedRegistry (fun _ => rfl)
      groupedItems groupedRegistry.ListItems groupedRegistry_result
      groupedRegistry.ListItems_isResult⟩

/-- C22: for every registry in which no standalone task's name equals the group
label of a registered grouped task, the names of the items of `ListItems()` are
pairwise different, the sequence is strictly ascending by name, and it is the
only arrangement of its items that is sorted by name. -/
theorem ListItems_names_distinct (r : TaskRegistry) (hclash : r.NoLabelClash)
    (out : List TaskListItem) (h : r.ListItemsResult out) :
    (out.map TaskListItem.Name).Nodup ∧
      out.Pairwise (fun a b => GoString.lt a.Name b.Name = true) ∧
      ∀ l : List TaskListItem, l.Perm out →
        l.Pairwise (fun a b => GoString.le a.Name b.Name = true) → l = out := by
  have hres := (r.ListItemsResult_iff out).mp h
  have hnd : (out.map TaskListItem.Name).Nodup :=
    (hres.1.map TaskListItem.Name).nodup_iff.mpr (r.listCollect_names_nodup hclash)
  refine ⟨hnd, ?_, ?_⟩
  · have hne : out.Pairwise (fun a b => a.Name ≠ b.Name) := List.pairwise_map.mp hnd
    refine (hres.2.and hne).imp ?_
    rintro a b ⟨hab, hneq⟩
    cases hlt : GoString.lt a.Name b.Name with
    | true => rfl
    | false => exact absurd (GoString.eq_of_not_lt hlt hab) hneq
  · intro l hperm hsorted
    refine sortSliceResult_unique (r.listCollect_names_nodup hclash)
      ⟨hperm.trans hres.1, hsorted.imp (fun hab => ?_)⟩ hres
    exact (GoString.le_iff_notAfter _ _).mp hab

theorem ListItems_names_distinct_witness :
    groupedRegistry.NoLabelClash ∧ groupedRegistry.ListItemsResult groupedItems ∧
      (groupedItems.map TaskListItem.Name).Nodup ∧
      groupedItems.Pairwise (fun a b => GoString.lt a.Name b.Name = true) :=
  have hclash : groupedRegistry.NoLabelClash := by
    unfold TaskRegistry.NoLabelClash
    decide
  have hthm := ListItems_names_distinct groupedRegistry hclash groupedItems groupedRegistry_result
  ⟨hclash, groupedRegistry_result, hthm.1, hthm.2.1⟩

/-! ## Where a registered name occurs in a result of `ListItems` -/

theorem filter_eq_of_nodup (l : List GoString) (hl : l.Nodup) (n : GoString) :
    l.filter (fun m => decide (m = n)) = if n ∈ l then [n] else [] := by
  induction l with
  | nil => rfl
  | cons a rest ih =>
    rw [List.nodup_cons] at hl
    rw [List.filter_cons]
    by_cases ha : a = n
    · have hn : n ∉ rest := ha ▸ hl.1
      rw [if_pos (by simp [ha]), ih hl.2, if_neg hn, if_pos (by simp [ha]), ha]
    · have hne : ¬ n = a := fun h => ha h.symm
      rw [if_neg (by simp [ha]), ih hl.2]
      simp only [List.mem_cons, hne, false_or]

/-- The items outside any group named `n` in a result: the one standalone item of
`n` when `n` is registered outside any group, none otherwise. -/
theorem TaskRegistry.filter_standalone_of_result {r : TaskRegistry} {out : List TaskListItem}
    (h : r.ListItemsResult out) (n : GoString) :
    out.filter (fun i => !i.IsGroup && decide (i.Name = n)) =
      if n ∈ r.Names ∧ r.groupOf n = none then [standaloneItem n] else [] := by
  have hperm := (((r.ListItemsResult_iff out).mp h).1).filter
    (fun i => !i.IsGroup && decide (i.Name = n))
  have hgroups : (r.listCollect.1.entries.map groupItem).filter
      (fun i => !i.IsGroup && decide (i.Name = n)) = [] := by
    rw [List.filter_eq_nil_iff]
    intro i hi
    obtain ⟨e, _, hei⟩ := List.mem_map.mp hi
    rw [← hei]
    simp [groupItem]
  have hfun : ((fun i : TaskListItem => !i.IsGroup && decide (i.Name = n)) ∘ standaloneItem) =
      fun m => decide (m = n) := by
    funext m
    simp [standaloneItem]
  have hnd : (r.Names.filter (fun m => decide (r.groupOf m = none))).Nodup :=
    r.Names_nodup.filter _
  rw [List.filter_append, hgroups, List.append_nil, r.listCollect_items,
    TaskRegistry.standaloneItems, List.filter_map, hfun, filter_eq_of_nodup _ hnd n] at hperm
  have hmem : n ∈ r.Names.filter (fun m => decide (r.groupOf m = none)) ↔
      n ∈ r.Names ∧ r.groupOf n = none := by
    rw [List.mem_filter, decide_eq_true_eq]
  by_cases hn : n ∈ r.Names ∧ r.groupOf n = none
  · rw [if_pos (hmem.mpr hn)] at hperm
    rw [if_pos hn]
    exact List.perm_singleton.mp hperm
  · rw [if_neg (fun hc => hn (hmem.mp hc))] at hperm
    rw [if_neg hn]
    exact List.perm_nil.mp hperm

/-- The group items with `n` among their tasks in a result: the one group item of
the label `n` is grouped under, none when `n` is not a registered grouped name. -/
theorem TaskRegistry.filter_member_of_result {r : TaskRegistry} {out : List TaskListItem}
    (h : r.ListItemsResult out) (n : GoString) :
    (∀ g, n ∈ r.Names → r.groupOf n = some g →
      out.filter (fun i => i.IsGroup && decide (n ∈ i.Tasks)) =
        [{ Name := g, IsGroup := true, Tasks := r.groupMembers r.Names g }]) ∧
    ((¬ ∃ g, n ∈ r.Names ∧ r.groupOf n = some g) →
      out.filter (fun i => i.IsGroup && decide (n ∈ i.Tasks)) = []) := by
  have hperm := (((r.ListItemsResult_iff out).mp h).1).filter
    (fun i => i.IsGroup && decide (n ∈ i.Tasks))
  have hitems : (r.listCollect.2).filter (fun i => i.IsGroup && decide (n ∈ i.Tasks)) = [] := by
    rw [List.filter_eq_nil_iff]
    intro i hi
    rw [TaskRegistry.listCollect_items] at hi
    simp [r.standaloneItems_not_group _ i hi]
  have hfun : ((fun i : TaskListItem => i.IsGroup && decide (n ∈ i.Tasks)) ∘ groupItem) =
      fun e => decide (n ∈ e.2) := by
    funext e
    simp [groupItem]
  rw [List.filter_append, hitems, List.nil_append, List.filter_map, hfun] at hperm
  have hentry : ∀ e ∈ r.listCollect.1.entries,
      (n ∈ e.2 ↔ n ∈ r.Names ∧ r.groupOf n = some e.1) := by
    intro e he
    have hmem : (e.1, e.2) ∈ r.listCollect.1.entries := he
    rw [((r.mem_listCollect_groups e.1 e.2).mp hmem).1, r.mem_groupMembers_iff]
  constructor
  · intro g hn hg
    have hcongr : r.listCollect.1.entries.filter (fun e => decide (n ∈ e.2)) =
        r.listCollect.1.entries.filter (fun e => decide (e.1 = g)) := by
      refine List.filter_congr (fun e he => ?_)
      rw [decide_eq_decide, hentry e he, hg]
      constructor
      · rintro ⟨_, heq⟩
        exact (Option.some.inj heq).symm
      · intro heq
        exact ⟨hn, by rw [heq]⟩
    have hne : r.groupMembers r.Names g ≠ [] :=
      List.ne_nil_of_mem ((r.mem_groupMembers_iff g n).mpr ⟨hn, hg⟩)
    have hget : GoMap.lookup g r.listCollect.1.entries = some (r.groupMembers r.Names g) := by
      have := r.listCollect_groups g
      rw [TaskRegistry.groupEntry, if_neg hne] at this
      exact this
    rw [hcongr, GoMap.filter_key g _ r.listCollect.1.nodupKeys, hget] at hperm
    exact List.perm_singleton.mp hperm
  · intro hno
    have hnil : r.listCollect.1.entries.filter (fun e => decide (n ∈ e.2)) = [] := by
      rw [List.filter_eq_nil_iff]
      intro e he
      rw [decide_eq_true_eq, hentry e he]
      exact fun hc => hno ⟨e.1, hc⟩
    rw [hnil] at hperm
    exact List.perm_nil.mp hperm

/-! ## Claims on the items of `ListItems` -/

/-- C23: for every registry, every possible result of `ListItems()` and every
string `n`: if `n` is a registered name outside any group, exactly one item
outside any group is named `n` and no group item has `n` among its tasks; if `n`
is a registered name grouped under `g`, no item outside any group is named `n`,
exactly one group item has `n` among its tasks, that of `g`, and these tasks
have no repetition; if `n` is no registered name, it is neither the name of an item outside
any group nor among the tasks of a group item. -/
theorem ListItems_partition (r : TaskRegistry) (out : List TaskListItem)
    (h : r.ListItemsResult out) (n : GoString) :
    (n ∈ r.Names → r.groupOf n = none →
      out.filter (fun i => !i.IsGroup && decide (i.Name = n)) =
          [{ Name := n, IsGroup := false, Tasks := [] }] ∧
        out.filter (fun i => i.IsGroup && decide (n ∈ i.Tasks)) = []) ∧
    (n ∈ r.Names → ∀ g, r.groupOf n = some g →
      out.filter (fun i => !i.IsGroup && decide (i.Name = n)) = [] ∧
        ∃ tasks, out.filter (fun i => i.IsGroup && decide (n ∈ i.Tasks)) =
            [{ Name := g, IsGroup := true, Tasks := tasks }] ∧ n ∈ tasks ∧ tasks.Nodup) ∧
    (n ∉ r.Names →
      out.filter (fun i => !i.IsGroup && decide (i.Name = n)) = [] ∧
        out.filter (fun i => i.IsGroup && decide (n ∈ i.Tasks)) = []) := by
  have hs := TaskRegistry.filter_standalone_of_result h n
  obtain ⟨hm1, hm2⟩ := TaskRegistry.filter_member_of_result h n
  refine ⟨?_, ?_, ?_⟩
  · intro hn hg
    rw [if_pos ⟨hn, hg⟩] at hs
    refine ⟨hs, hm2 ?_⟩
    rintro ⟨g, _, hg'⟩
    rw [hg] at hg'
    exact absurd hg' (by simp)
  · intro hn g hg
    rw [if_neg (fun hc => by rw [hg] at hc; exact absurd hc.2 (by simp))] at hs
    exact ⟨hs, _, hm1 g hn hg, (r.mem_groupMembers_iff g n).mpr ⟨hn, hg⟩,
      r.Names_nodup.filter _⟩
  · intro hn
    rw [if_neg (fun hc => hn hc.1)] at hs
    exact ⟨hs, hm2 (fun ⟨_, hc, _⟩ => hn hc)⟩

theorem ListItems_partition_witness :
    groupedRegistry.ListItemsResult groupedItems ∧
      groupedItems.filter (fun i => !i.IsGroup && decide (i.Name = str "alpha")) = [] ∧
      ∃ tasks, groupedItems.filter (fun i => i.IsGroup && decide (str "alpha" ∈ i.Tasks)) =
          [{ Name := str "my group", IsGroup := true, Tasks := tasks }] ∧
        str "alpha" ∈ tasks ∧ tasks.Nodup :=
  ⟨groupedRegistry_result,
    (ListItems_partition groupedRegistry groupedItems groupedRegistry_result (str "alpha")).2.1
      (by decide) (str "my group") (by decide)⟩

/-- C24: for every registry and every item of a possible result of `ListItems()`:
a group item has at least one task, and an item that is no group has none. -/
theorem ListItems_tasks_of_kind (r : TaskRegistry) (out : List TaskListItem)
    (h : r.ListItemsResult out) (i : TaskListItem) (hi : i ∈ out) :
    (i.IsGroup = true → i.Tasks ≠ []) ∧ (i.IsGroup = false → i.Tasks = []) := by
  rcases (TaskRegistry.item_cases h i).mp hi with ⟨n, _, _, hin⟩ | ⟨g, hne, hig⟩
  · rw [hin]
    exact ⟨fun hc => absurd hc (by simp [standaloneItem]), fun _ => rfl⟩
  · rw [hig]
    exact ⟨fun _ => hne, fun hc => absurd hc (by simp)⟩

theorem ListItems_tasks_of_kind_witness :
    groupedRegistry.ListItemsResult groupedItems ∧
      (⟨str "other group", true, [str "gamma"]⟩ : TaskListItem) ∈ groupedItems ∧
      ([str "gamma"] : List GoString) ≠ [] :=
  ⟨groupedRegistry_result, by decide,
    (ListItems_tasks_of_kind groupedRegistry groupedItems groupedRegistry_result
      ⟨str "other group", true, [str "gamma"]⟩ (by decide)).1 rfl⟩

/-- Where a registered name is placed in a result: by the group of the task
registered under it, and nowhere else. -/
theorem TaskRegistry.placement {r : TaskRegistry} {out : List TaskListItem}
    (h : r.ListItemsResult out) (n : GoString) (hn : n ∈ r.Names) :
    (r.groupOf n = none → standaloneItem n ∈ out) ∧
      (∀ i ∈ out, i.IsGroup = true → n ∈ i.Tasks → r.groupOf n = some i.Name) ∧
      (∀ g, r.groupOf n = some g → ∃ i ∈ out, i.IsGroup = true ∧ i.Name = g ∧ n ∈ i.Tasks) ∧
      (∀ i ∈ out, i.IsGroup = false → i.Name = n → r.groupOf n = none) := by
  refine ⟨?_, ?_, ?_, ?_⟩
  · intro hg
    exact (TaskRegistry.item_cases h _).mpr (Or.inl ⟨n, hn, hg, rfl⟩)
  · intro i hi hgroup hmem
    rcases (TaskRegistry.item_cases h i).mp hi with ⟨m, _, _, him⟩ | ⟨g, _, hig⟩
    · rw [him] at hgroup
      exact absurd hgroup (by simp [standaloneItem])
    · rw [hig] at hmem ⊢
      exact ((r.mem_groupMembers_iff g n).mp hmem).2
  · intro g hg
    have hmem : n ∈ r.groupMembers r.Names g := (r.mem_groupMembers_iff g n).mpr ⟨hn, hg⟩
    exact ⟨_, (TaskRegistry.item_cases h _).mpr (Or.inr ⟨g, List.ne_nil_of_mem hmem, rfl⟩),
      rfl, rfl, hmem⟩
  · intro i hi hgroup hname
    rcases (TaskRegistry.item_cases h i).mp hi with ⟨m, _, hm, him⟩ | ⟨g, _, hig⟩
    · rw [him] at hname
      rw [← hname]
      exact hm
    · rw [hig] at hgroup
      exact absurd hgroup (by simp)

/-- C25: when a task `t` is the last of its name in the list (it overwrites every
earlier task of that name), the listing and the settings follow `t` alone: a
result of `ListItems()` has the name as a standalone item exactly when `t` is not
grouped, and among the tasks of a group item exactly when that is the group of
`t`; and `TemplateSettings()` holds the settings of `t` for the name, for every
order in which a call ranges over the map. -/
theorem later_task_wins (pre post : List Task) (t : Task)
    (hpost : ∀ u ∈ post, u.Name ≠ t.Name) (out : List TaskListItem)
    (h : (NewTaskRegistry ⟨pre ++ t :: post⟩).ListItemsResult out)
    (order : List (GoString × Task))
    (horder : order.Perm (NewTaskRegistry ⟨pre ++ t :: post⟩).tasks.entries) :
    (t.Group = none → standaloneItem t.Name ∈ out) ∧
      (∀ i ∈ out, i.IsGroup = false → i.Name = t.Name → t.Group = none) ∧
      (∀ g, t.Group = some g → ∃ i ∈ out, i.IsGroup = true ∧ i.Name = g ∧ t.Name ∈ i.Tasks) ∧
      (∀ i ∈ out, i.IsGroup = true → t.Name ∈ i.Tasks → t.Group = some i.Name) ∧
      (templateSettingsOver order).get? t.Name = some (taskSettings t) ∧
      (NewTaskRegistry ⟨pre ++ t :: post⟩).TemplateSettings.get? t.Name =
        some (taskSettings t) := by
  have hmem : (t.Name, t) ∈ (NewTaskRegistry ⟨pre ++ t :: post⟩).tasks.entries :=
    (GoMap.get?_eq_some_iff _ _ _).mp (NewTaskRegistry_get?_last pre post t hpost)
  have hgroup := TaskRegistry.groupOf_of_mem _ t.Name t hmem
  obtain ⟨h1, h2, h3, h4⟩ :=
    TaskRegistry.placement h t.Name (TaskRegistry.mem_Names_of_mem _ t.Name t hmem)
  rw [hgroup] at h1 h2 h3 h4
  refine ⟨h1, h4, h3, h2, templateSettingsOver_get? _ order horder t.Name t hmem, ?_⟩
  rw [TaskRegistry.TemplateSettings_eq]
  exact templateSettingsOver_get? _ _ (List.Perm.refl _) t.Name t hmem

theorem later_task_wins_witness :
    (NewTaskRegistry ⟨overwrittenTasks⟩).ListItems =
        [{ Name := str "a", IsGroup := false, Tasks := [] }] ∧
      standaloneItem (str "a") ∈ (NewTaskRegistry ⟨overwrittenTasks⟩).ListItems ∧
      (NewTaskRegistry ⟨overwrittenTasks⟩).TemplateSettings.get? (str "a") =
        some DefaultTaskTemplateSettings :=
  have hthm := later_task_wins [NewGroupedTask (str "a") (str "g")] []
    (plainTask (str "a") ⟨true, str "later", none⟩)
    (fun u hu => absurd hu (List.not_mem_nil u))
    (NewTaskRegistry ⟨overwrittenTasks⟩).ListItems
    (TaskRegistry.ListItems_isResult _) _ (List.Perm.refl _)
  ⟨by decide, hthm.1 rfl, hthm.2.2.2.2.2⟩

/-- C26: for every registry and every registered task with the grouped capability,
whatever label it returns (the empty string included): no item outside any group
of a result of `ListItems()` has the task's name, and the name is among the tasks
of a group item named by the label. -/
theorem grouped_never_standalone (r : TaskRegistry) (out : List TaskListItem)
    (h : r.ListItemsResult out) (n : GoString) (t : Task) (hmem : (n, t) ∈ r.tasks.entries)
    (g : GoString) (hg : t.Group = some g) :
    (∀ i ∈ out, i.IsGroup = false → i.Name ≠ n) ∧
      ∃ i ∈ out, i.IsGroup = true ∧ i.Name = g ∧ n ∈ i.Tasks := by
  have hgroup : r.groupOf n = some g := by
    rw [r.groupOf_of_mem n t hmem, hg]
  obtain ⟨_, _, h3, h4⟩ := TaskRegistry.placement h n (r.mem_Names_of_mem n t hmem)
  refine ⟨fun i hi hfalse hname => ?_, h3 g hgroup⟩
  have hnone := h4 i hi hfalse hname
  rw [hgroup] at hnone
  exact absurd hnone (by simp)

theorem grouped_never_standalone_witness :
    emptyLabelRegistry.ListItemsResult [{ Name := str "", IsGroup := true, Tasks := [str "a"] }] ∧
      (str "a", NewGroupedTask (str "a") (str "")) ∈ emptyLabelRegistry.tasks.entries ∧
      ∃ i ∈ ([{ Name := str "", IsGroup := true, Tasks := [str "a"] }] : List TaskListItem),
        i.IsGroup = true ∧ i.Name = str "" ∧ str "a" ∈ i.Tasks :=
  have hres : emptyLabelRegistry.ListItemsResult
      [{ Name := str "", IsGroup := true, Tasks := [str "a"] }] := by
    have h := emptyLabelRegistry.ListItems_isResult
    rwa [show emptyLabelRegistry.ListItems =
      [{ Name := str "", IsGroup := true, Tasks := [str "a"] }] by decide] at h
  ⟨hres, (GoMap.get?_eq_some_iff _ _ _).mp rfl,
    (grouped_never_standalone emptyLabelRegistry _ hres (str "a")
      (NewGroupedTask (str "a") (str "")) ((GoMap.get?_eq_some_iff _ _ _).mp rfl)
      (str "") rfl).2⟩

/-- C27: for the registry built from the empty task list: `Names()` is empty, the
one possible result of `ListItems()` is the empty sequence, `TemplateSettings()`
is the empty map for every order of the range, and `Run` returns the not-found
failure result for every name; the four operations are total functions. -/
theorem empty_registry :
    (NewTaskRegistry ⟨[]⟩).Names = [] ∧
      (∀ out, (NewTaskRegistry ⟨[]⟩).ListItemsResult out ↔ out = []) ∧
      (NewTaskRegistry ⟨[]⟩).ListItems = [] ∧
      (∀ order : List (GoString × Task), order.Perm (NewTaskRegistry ⟨[]⟩).tasks.entries →
        (templateSettingsOver order).entries = []) ∧
      (NewTaskRegistry ⟨[]⟩).TemplateSettings.entries = [] ∧
      ∀ (ctx : Context) (name : GoString) (input : List Nat),
        (NewTaskRegistry ⟨[]⟩).Run ctx name input =
          { Success := false, Message := str "task " ++ name ++ str " not found",
            Details := none } := by
  refine ⟨rfl, ?_, rfl, ?_, rfl, fun _ _ _ => rfl⟩
  · intro out
    rw [TaskRegistry.ListItemsResult_iff]
    constructor
    · intro hres
      exact List.perm_nil.mp hres.1
    · intro hout
      rw [hout]
      exact ⟨List.Perm.refl _, List.Pairwise.nil⟩
  · intro order horder
    have hnil : order = [] := List.perm_nil.mp horder
    rw [hnil]
    rfl

end Fxcore
